import Mathlib

/-!
Shallow embedding of the doubly linked list library in `src/list.h` and
`src/list.c` (XiufengZhang/list).

Nodes live in an explicit heap indexed by natural-number identifiers; the C
null pointer is `Option.none`; the opaque `void *` value handles are natural
numbers, with `0` playing the role of the null value handle (which
`list_node_new` rejects).  The C `unsigned int len` is modelled as `Nat`:
no verified trace comes near the 2^32 wrap, and the one place C could wrap
(`--self->len` past zero) is flagged where it is modelled.  Allocation is
modelled as always succeeding, a monotone counter providing fresh
identifiers; `malloc` returning `NULL` is the one failure mode the model
drops.  Every dereference the C code performs without a null check is either
modelled explicitly (`CResult.nullDeref` for the iterator entry points) or
noted in the doc comment of the definition when it can only occur in states
the verified traces never reach.
-/

/-- Iterator direction, `list_direction_t` of src/list.h line 52. -/
inductive list_direction_t where
  | LIST_HEAD
  | LIST_TAIL
deriving DecidableEq, Repr

export list_direction_t (LIST_HEAD LIST_TAIL)

/-- One chain element, `list_node_t` of src/list.h lines 57-61.  `prev` and
`next` hold node identifiers (null pointer = `none`); `val` is the opaque
value handle. -/
structure list_node_t where
  prev : Option Nat
  next : Option Nat
  val : Nat
deriving DecidableEq, Repr

/-- The node heap: a finite map from node identifiers to nodes, as an
association list in which the most recent binding wins. -/
abbrev Heap := List (Nat × list_node_t)

/-- Heap lookup (pointer dereference). -/
def hget (h : Heap) (i : Nat) : Option list_node_t :=
  match h with
  | [] => none
  | (j, n) :: r => if j = i then some n else hget r i

/-- Heap update / allocation at identifier `i`. -/
def hset (h : Heap) (i : Nat) (n : list_node_t) : Heap :=
  (i, n) :: h

/-- Write the `prev` field of node `i`.  On a dangling identifier the write
is dropped; in C that store would be undefined behaviour, and it is never
reached from the states this development verifies. -/
def hsetPrev (h : Heap) (i : Nat) (p : Option Nat) : Heap :=
  match hget h i with
  | some n => hset h i { n with prev := p }
  | none => h

/-- Write the `next` field of node `i`; same dangling-pointer caveat as
`hsetPrev`. -/
def hsetNext (h : Heap) (i : Nat) (q : Option Nat) : Heap :=
  match hget h i with
  | some n => hset h i { n with next := q }
  | none => h

/-- Deallocate node `i` (`LIST_FREE(node)`): every binding of `i` goes. -/
def herase (h : Heap) (i : Nat) : Heap :=
  match h with
  | [] => []
  | (j, n) :: r => if j = i then herase r i else (j, n) :: herase r i

/-- The value handle stored at node `i` (`node->val`); `0` on a dangling
identifier, which no verified state produces. -/
def valAt (h : Heap) (i : Nat) : Nat :=
  match hget h i with
  | some n => n.val
  | none => 0

/-- The list header, `list_t` of src/list.h lines 66-73.  The `free` slot
(release callback) is modelled by whether it is installed; its only
observable effect, the calls it receives, is logged in `State.freed`.  The C
field `match` is a Lean keyword, hence `matchCb`.  `matchCb` and `compare`
are optional boolean predicates on value handles, per the source comment on
`compare` ("if a > b, return 1, else return 0"). -/
structure list_t where
  head : Option Nat
  tail : Option Nat
  len : Nat
  free : Bool
  matchCb : Option (Nat → Nat → Bool)
  compare : Option (Nat → Nat → Bool)

/-- A program state: the node heap, the single list under verification, the
log of value handles passed to the release callback so far, and the
allocation counter that supplies fresh node identifiers. -/
structure State where
  heap : Heap
  lst : list_t
  freed : List Nat
  nextId : Nat

/-- src/list.c lines 6-18 (same text as src/list.h lines 100-112),
`list_node_new`: reject a null value handle, otherwise allocate a fresh node
with both links cleared and the given value.  Allocation failure is not
modelled. -/
def list_node_new (s : State) (val : Nat) : State × Option Nat :=
  if val = 0 then (s, none)
  else
    ({ s with heap := hset s.heap s.nextId ⟨none, none, val⟩, nextId := s.nextId + 1 },
     some s.nextId)

/-- src/list.c lines 23-35, `list_new`: a fresh empty list with every
callback slot cleared (`self->free = NULL` on line 30). -/
def list_new : list_t :=
  { head := none, tail := none, len := 0, free := false, matchCb := none, compare := none }

/-- src/list.h lines 117-129, the `static inline list_new`: identical to the
list.c version except that line 124 reads `self->free = LIST_FREE`, so the
release callback IS installed on a fresh list. -/
def list_new_h : list_t :=
  { head := none, tail := none, len := 0, free := true, matchCb := none, compare := none }

/-- The state right after `list_new` (list.c version): empty heap, empty
list, nothing released yet, no node allocated yet. -/
def emptyState : State :=
  { heap := [], lst := list_new, freed := [], nextId := 0 }

/-- The state right after the src/list.h `list_new`. -/
def emptyStateH : State :=
  { heap := [], lst := list_new_h, freed := [], nextId := 0 }

/-- src/list.c lines 40-57, `list_remove`, after the null checks of lines
42-43.  The code never checks that `node` belongs to `self`: it rewires
through the node's own `prev`/`next` unconditionally (lines 45-47), invokes
the release callback when installed, frees the node and decrements `len`.
`--self->len` is a C unsigned decrement; `Nat` truncated subtraction stands
in for it (no verified trace underflows it).  A dangling `node` identifier
(already-freed memory; undefined in C) is unmodelled and leaves the state
unchanged. -/
def list_remove (s : State) (node : Nat) : State × Int :=
  match hget s.heap node with
  | none => (s, 0)
  | some n =>
    let s1 : State :=
      match n.prev with
      | some p => { s with heap := hsetNext s.heap p n.next }
      | none => { s with lst := { s.lst with head := n.next } }
    let s2 : State :=
      match n.next with
      | some q => { s1 with heap := hsetPrev s1.heap q n.prev }
      | none => { s1 with lst := { s1.lst with tail := n.prev } }
    let s3 : State := if s2.lst.free then { s2 with freed := s2.freed ++ [n.val] } else s2
    ({ s3 with heap := herase s3.heap node, lst := { s3.lst with len := s3.lst.len - 1 } }, 0)

/-- src/list.c lines 92-109, `list_rpush`, after the null checks of line 94.
In the `self->len` nonzero branch the code writes `self->tail->next = node`;
a null tail there cannot arise in a well-formed list and is modelled as
dropping that one write. -/
def list_rpush (s : State) (node : Nat) : State × Nat :=
  if s.lst.len ≠ 0 then
    let h1 := hsetPrev s.heap node s.lst.tail
    let h2 := hsetNext h1 node none
    let h3 := match s.lst.tail with
              | some t => hsetNext h2 t (some node)
              | none => h2
    let l3 := { s.lst with tail := some node, len := s.lst.len + 1 }
    ({ s with heap := h3, lst := l3 }, node)
  else
    let h1 := hsetNext (hsetPrev s.heap node none) node none
    let l1 := { s.lst with head := some node, tail := some node, len := s.lst.len + 1 }
    ({ s with heap := h1, lst := l1 }, node)

/-- src/list.c lines 115-132, `list_lpush`, after the null checks; mirror
image of `list_rpush`. -/
def list_lpush (s : State) (node : Nat) : State × Nat :=
  if s.lst.len ≠ 0 then
    let h1 := hsetNext s.heap node s.lst.head
    let h2 := hsetPrev h1 node none
    let h3 := match s.lst.head with
              | some hd => hsetPrev h2 hd (some node)
              | none => h2
    let l3 := { s.lst with head := some node, len := s.lst.len + 1 }
    ({ s with heap := h3, lst := l3 }, node)
  else
    let h1 := hsetNext (hsetPrev s.heap node none) node none
    let l1 := { s.lst with head := some node, tail := some node, len := s.lst.len + 1 }
    ({ s with heap := h1, lst := l1 }, node)

/-- src/list.c lines 137-152, `list_rpop`, after the null/empty check of
line 139.  The surviving-tail branch executes
`(self->tail = node->prev)->next = NULL`; a null `node->prev` there cannot
arise in a well-formed list of two or more nodes and is modelled as dropping
the `next` write.  The detached node is NOT freed and no release callback
runs; lines 150-151 clear both of its links before returning it. -/
def list_rpop (s : State) : State × Option Nat :=
  if s.lst.len = 0 then (s, none)
  else
    match s.lst.tail with
    | none => (s, none)
    | some node =>
      let len' := s.lst.len - 1
      let s1 : State :=
        if len' = 0 then
          { s with lst := { s.lst with head := none, tail := none, len := len' } }
        else
          let p := match hget s.heap node with | some n => n.prev | none => none
          { s with heap := (match p with | some q => hsetNext s.heap q none | none => s.heap),
                   lst := { s.lst with tail := p, len := len' } }
      ({ s1 with heap := hsetPrev (hsetNext s1.heap node none) node none }, some node)

/-- src/list.c lines 157-172, `list_lpop`, after the null/empty check;
mirror image of `list_rpop`. -/
def list_lpop (s : State) : State × Option Nat :=
  if s.lst.len = 0 then (s, none)
  else
    match s.lst.head with
    | none => (s, none)
    | some node =>
      let len' := s.lst.len - 1
      let s1 : State :=
        if len' = 0 then
          { s with lst := { s.lst with head := none, tail := none, len := len' } }
        else
          let q := match hget s.heap node with | some n => n.next | none => none
          { s with heap := (match q with | some j => hsetPrev s.heap j none | none => s.heap),
                   lst := { s.lst with head := q, len := len' } }
      ({ s1 with heap := hsetPrev (hsetNext s1.heap node none) node none }, some node)

/-- src/list.h lines 91-94, `list_iterator_t`: the cursor (`next`, possibly
null) and the traversal direction. -/
structure list_iterator_t where
  next : Option Nat
  direction : list_direction_t
deriving DecidableEq, Repr

/-- src/list.c lines 178-186, `list_iterator_new_from_node`: a null start
node is a legitimate (immediately exhausted) cursor, so no check is made. -/
def list_iterator_new_from_node (node : Option Nat) (direction : list_direction_t) :
    list_iterator_t :=
  { next := node, direction := direction }

/-- src/list.c lines 192-196, `list_iterator_new`, after the dereference of
`list` — which the C function performs WITHOUT a null check (see
`list_iterator_new_c` for the raw entry point). -/
def list_iterator_new (list : list_t) (direction : list_direction_t) : list_iterator_t :=
  list_iterator_new_from_node
    (if direction = LIST_HEAD then list.head else list.tail) direction

/-- src/list.c lines 202-209, `list_iterator_next`, after the dereference of
`self` — performed WITHOUT a null check in C (see `list_iterator_next_c`).
Advancing through a dangling node identifier (a read of freed memory in C)
is modelled as falling off the chain. -/
def list_iterator_next (h : Heap) (self : list_iterator_t) : list_iterator_t × Option Nat :=
  match self.next with
  | none => (self, none)
  | some curr =>
    let nxt : Option Nat :=
      match hget h curr with
      | some n => if self.direction = LIST_HEAD then n.next else n.prev
      | none => none
    ({ self with next := nxt }, some curr)

/-- The `while ((node = list_iterator_next(it)))` search loop of `list_find`
(src/list.c lines 233-245).  Fuel bounds the iteration count; the C loop is
bounded by the chain reaching NULL, and fuel `len + 1` covers that in every
well-formed state. -/
def findLoop (s : State) (val : Nat) : Nat → list_iterator_t → Option Nat
  | 0, _ => none
  | fuel + 1, it =>
    match list_iterator_next s.heap it with
    | (_, none) => none
    | (it', some i) =>
      match hget s.heap i with
      | none => none
      | some n =>
        match s.lst.matchCb with
        | some m => if m n.val val then some i else findLoop s val fuel it'
        | none => if n.val = val then some i else findLoop s val fuel it'

/-- src/list.c lines 223-249, `list_find`, after the null check of line 228:
linear scan from the head, using the match callback when installed and raw
handle equality otherwise. -/
def list_find (s : State) (val : Nat) : Option Nat :=
  findLoop s val (s.lst.len + 1) (list_iterator_new s.lst LIST_HEAD)

/-- The walk of `list_at` (src/list.c lines 268-270):
`node = list_iterator_next(it); while (index--) node = list_iterator_next(it);`
i.e. the `(k+1)`-st yield of the iterator. -/
def atLoop (h : Heap) : Nat → list_iterator_t → Option Nat
  | 0, it => (list_iterator_next h it).2
  | k + 1, it => atLoop h k (list_iterator_next h it).1

/-- src/list.c lines 254-276, `list_at`, after the null check of line 258.
A negative C `int` index flips the direction and is complemented
(`index = ~index`; in two's complement `~i = -i - 1`); the
`(unsigned)index < self->len` range check becomes the `Nat` comparison after
`Int.toNat`, which is value-preserving because the complemented index is
non-negative. -/
def list_at (s : State) (index : Int) : Option Nat :=
  let direction : list_direction_t := if index < 0 then LIST_TAIL else LIST_HEAD
  let idx : Nat := if index < 0 then (-index - 1).toNat else index.toNat
  if idx < s.lst.len then
    atLoop s.heap idx (list_iterator_new s.lst direction)
  else
    none

/-- The scan loop shared in shape by `list_push_asc` (src/list.c lines
295-305) and `list_push_desc` (lines 340-350): walk from the head and return
the first node on which the break test `brk` fires, or NULL when the
iterator is exhausted.  Fuel bounds the iteration count as in `findLoop`. -/
def scanLoop (h : Heap) (brk : list_node_t → Bool) : Nat → list_iterator_t → Option Nat
  | 0, _ => none
  | fuel + 1, it =>
    match list_iterator_next h it with
    | (_, none) => none
    | (it', some i) =>
      match hget h i with
      | none => none
      | some n => if brk n then some i else scanLoop h brk fuel it'

/-- The post-scan dispatch shared verbatim by `list_push_asc` (src/list.c
lines 308-320) and `list_push_desc` (lines 353-365): append when the scan
fell off the end, prepend when the break node is the head (`node->prev`
null), otherwise splice `node_in` immediately before the break node — the
four link writes of lines 313-316, in source order. -/
def pushDispatch (s : State) (node_in : Nat) (onode : Option Nat) : State × Option Nat :=
  match onode with
  | none => let r := list_rpush s node_in; (r.1, some r.2)
  | some b =>
    match hget s.heap b with
    | none => (s, none)
    | some bn =>
      match bn.prev with
      | none => let r := list_lpush s node_in; (r.1, some r.2)
      | some q =>
        let h1 := hsetNext s.heap node_in (some b)
        let h2 := hsetPrev h1 node_in (some q)
        let h3 := hsetNext h2 q (some node_in)
        let h4 := hsetPrev h3 b (some node_in)
        ({ s with heap := h4, lst := { s.lst with len := s.lst.len + 1 } }, some node_in)

/-- Break test of the `list_push_asc` scan (src/list.c lines 296-304):
`self->compare(node->val, node_in->val)` when a compare callback is
installed, else the default raw-handle comparison
`node->val > node_in->val`. -/
def ascBrk (s : State) (vin : Nat) (n : list_node_t) : Bool :=
  match s.lst.compare with
  | some cmp => cmp n.val vin
  | none => decide (n.val > vin)

/-- Break test of the `list_push_desc` scan (src/list.c lines 341-349):
`!(self->compare(node->val, node_in->val))` when a compare callback is
installed, else the default `node->val < node_in->val`. -/
def descBrk (s : State) (vin : Nat) (n : list_node_t) : Bool :=
  match s.lst.compare with
  | some cmp => ! cmp n.val vin
  | none => decide (n.val < vin)

/-- src/list.c lines 282-321, `list_push_asc`, after the null checks of line
287: empty list appends directly (line 291), otherwise scan from the head
with the ascending break test and dispatch on the break node. -/
def list_push_asc (s : State) (node_in : Nat) : State × Option Nat :=
  if s.lst.len = 0 then
    let r := list_rpush s node_in; (r.1, some r.2)
  else
    pushDispatch s node_in
      (scanLoop s.heap (ascBrk s (valAt s.heap node_in)) (s.lst.len + 1)
        (list_iterator_new s.lst LIST_HEAD))

/-- src/list.c lines 327-366, `list_push_desc`, after the null checks of
line 332; identical to `list_push_asc` except for the break test. -/
def list_push_desc (s : State) (node_in : Nat) : State × Option Nat :=
  if s.lst.len = 0 then
    let r := list_rpush s node_in; (r.1, some r.2)
  else
    pushDispatch s node_in
      (scanLoop s.heap (descBrk s (valAt s.heap node_in)) (s.lst.len + 1)
        (list_iterator_new s.lst LIST_HEAD))

/-- Outcome of calling a C entry point through possibly-null pointers: `ok`
is the defined result; `nullDeref` marks exactly the executions on which the
C code dereferences a null pointer (undefined behaviour in C). -/
inductive CResult (α : Type) where
  | ok (value : α)
  | nullDeref
deriving Repr

/-- src/list.c lines 40-43: `list_remove` checks both handles and returns -1
with no mutation when either is null. -/
def list_remove_c (self : Option State) (node : Option Nat) : Option State × Int :=
  match self, node with
  | some s, some nid => let r := list_remove s nid; (some r.1, r.2)
  | s, _ => (s, -1)

/-- src/list.c line 94: `list_rpush` returns NULL with no mutation when
either handle is null. -/
def list_rpush_c (self : Option State) (node : Option Nat) : Option State × Option Nat :=
  match self, node with
  | some s, some nid => let r := list_rpush s nid; (some r.1, some r.2)
  | s, _ => (s, none)

/-- src/list.c line 117: null-check wrapper of `list_lpush`. -/
def list_lpush_c (self : Option State) (node : Option Nat) : Option State × Option Nat :=
  match self, node with
  | some s, some nid => let r := list_lpush s nid; (some r.1, some r.2)
  | s, _ => (s, none)

/-- src/list.c line 139: `list_rpop` on a null list handle returns NULL with
no mutation. -/
def list_rpop_c (self : Option State) : Option State × Option Nat :=
  match self with
  | some s => let r := list_rpop s; (some r.1, r.2)
  | none => (none, none)

/-- src/list.c line 159: null-check wrapper of `list_lpop`. -/
def list_lpop_c (self : Option State) : Option State × Option Nat :=
  match self with
  | some s => let r := list_lpop s; (some r.1, r.2)
  | none => (none, none)

/-- src/list.c line 287: null-check wrapper of `list_push_asc`. -/
def list_push_asc_c (self : Option State) (node : Option Nat) : Option State × Option Nat :=
  match self, node with
  | some s, some nid => let r := list_push_asc s nid; (some r.1, r.2)
  | s, _ => (s, none)

/-- src/list.c line 332: null-check wrapper of `list_push_desc`. -/
def list_push_desc_c (self : Option State) (node : Option Nat) : Option State × Option Nat :=
  match self, node with
  | some s, some nid => let r := list_push_desc s nid; (some r.1, r.2)
  | s, _ => (s, none)

/-- src/list.c line 258: null-check wrapper of `list_at`. -/
def list_at_c (self : Option State) (index : Int) : Option Nat :=
  match self with
  | some s => list_at s index
  | none => none

/-- src/list.c line 228: null-check wrapper of `list_find`. -/
def list_find_c (self : Option State) (val : Nat) : Option Nat :=
  match self with
  | some s => list_find s val
  | none => none

/-- src/list.c lines 192-196 as actually written: `list_iterator_new`
dereferences `list` WITHOUT a null check, so a null list handle is a null
dereference, not a checked failure. -/
def list_iterator_new_c (list : Option list_t) (direction : list_direction_t) :
    CResult list_iterator_t :=
  match list with
  | some l => .ok (list_iterator_new l direction)
  | none => .nullDeref

/-- src/list.c lines 202-209 as actually written: `list_iterator_next`
dereferences `self` WITHOUT a null check. -/
def list_iterator_next_c (h : Heap) (self : Option list_iterator_t) :
    CResult (list_iterator_t × Option Nat) :=
  match self with
  | some it => .ok (list_iterator_next h it)
  | none => .nullDeref

/-- The chain read off by following `next` from a start pointer, with an
explicit fuel.  With fuel `len + 1` in a well-formed state this is exactly
the list of node identifiers reachable from the head, and the spare unit of
fuel certifies that the walk reached NULL rather than ran out. -/
def collectNext (h : Heap) : Nat → Option Nat → List Nat
  | 0, _ => []
  | _ + 1, none => []
  | fuel + 1, some i =>
    i :: (match hget h i with
          | some n => collectNext h fuel n.next
          | none => [])

/-- The observable chain of a state: node identifiers from `head` by `next`
links. -/
def chainOf (s : State) : List Nat :=
  collectNext s.heap (s.lst.len + 1) s.lst.head

/-- The observable chain of value handles of a state. -/
def valsOf (s : State) : List Nat :=
  (chainOf s).map (valAt s.heap)

/-- Adjacent-pairs weak ascending order. -/
def sortedLe : List Nat → Bool
  | [] => true
  | [_] => true
  | a :: b :: r => decide (a ≤ b) && sortedLe (b :: r)

/-- Adjacent-pairs weak descending order. -/
def sortedGe : List Nat → Bool
  | [] => true
  | [_] => true
  | a :: b :: r => decide (b ≤ a) && sortedGe (b :: r)

/-- One mutating API call, for the every-sequence claims.  The push
constructors wrap a fresh `list_node_new` value exactly as the library's
callers must (a rejected null value makes the push a no-op); `remove i`
removes the node returned by `list_at i`, which ranges over exactly the
nodes belonging to the list — the belonging precondition of `list_remove`
is the caller's obligation, so sequences built from `Op` are the sequences
of valid operations. -/
inductive Op where
  | rpush (v : Nat)
  | lpush (v : Nat)
  | rpop
  | lpop
  | remove (i : Nat)
  | pushAsc (v : Nat)
  | pushDesc (v : Nat)

/-- Interpret one operation on a state. -/
def applyOp (s : State) : Op → State
  | .rpush v =>
    match list_node_new s v with
    | (s1, some nid) => (list_rpush s1 nid).1
    | (s1, none) => s1
  | .lpush v =>
    match list_node_new s v with
    | (s1, some nid) => (list_lpush s1 nid).1
    | (s1, none) => s1
  | .rpop => (list_rpop s).1
  | .lpop => (list_lpop s).1
  | .remove i =>
    match list_at s (Int.ofNat i) with
    | some nid => (list_remove s nid).1
    | none => s
  | .pushAsc v =>
    match list_node_new s v with
    | (s1, some nid) => (list_push_asc s1 nid).1
    | (s1, none) => s1
  | .pushDesc v =>
    match list_node_new s v with
    | (s1, some nid) => (list_push_desc s1 nid).1
    | (s1, none) => s1

/-- Run a sequence of operations from the empty list. -/
def runOps (ops : List Op) : State :=
  ops.foldl applyOp emptyState

/-- The pointer a chain segment continues with: the first identifier of `r`,
or the exit pointer `q` when `r` is exhausted. -/
def headCtx (r : List Nat) (q : Option Nat) : Option Nat :=
  match r with
  | [] => q
  | j :: _ => some j

/-- The `prev` context a segment leaves behind: its last identifier, or the
entry context `p` when the segment is empty. -/
def lastCtx (p : Option Nat) (l : List Nat) : Option Nat :=
  match l.getLast? with
  | some x => some x
  | none => p

/-- The break test lifted from nodes to identifiers through a heap (false on
a dangling identifier, which no verified scan meets). -/
def brkAt (h : Heap) (brk : list_node_t → Bool) (i : Nat) : Bool :=
  match hget h i with
  | some n => brk n
  | none => false

/-- Chain-segment well-formedness: `segOk h p ids q` says the nodes listed
in `ids` sit consecutively in heap `h`, the first one's `prev` being `p`,
each one's `next` the following one, and the last one's `next` being `q`. -/
def segOk (h : Heap) : Option Nat → List Nat → Option Nat → Bool
  | _, [], _ => true
  | p, i :: rest, q =>
    match hget h i with
    | none => false
    | some n =>
      (n.prev == p) && (n.next == headCtx rest q) && segOk h (some i) rest q

/-- The representation invariant of a `list_t` state: `ids` is its chain. -/
def ListRep (s : State) (ids : List Nat) : Prop :=
  segOk s.heap none ids none = true ∧
  s.lst.head = ids.head? ∧
  s.lst.tail = ids.getLast? ∧
  s.lst.len = ids.length ∧
  ids.Nodup ∧
  ∀ i ∈ ids, i < s.nextId

instance (s : State) (ids : List Nat) : Decidable (ListRep s ids) := by
  unfold ListRep
  infer_instance

theorem hget_hset (h : Heap) (i j : Nat) (n : list_node_t) :
    hget (hset h i n) j = if i = j then some n else hget h j := by
  simp [hset, hget]

theorem hsetPrev_of_none (h : Heap) (i : Nat) (p : Option Nat) (hi : hget h i = none) :
    hsetPrev h i p = h := by
  simp [hsetPrev, hi]

theorem hsetNext_of_none (h : Heap) (i : Nat) (q : Option Nat) (hi : hget h i = none) :
    hsetNext h i q = h := by
  simp [hsetNext, hi]

theorem hget_hsetPrev_self (h : Heap) (i : Nat) (p : Option Nat) (n : list_node_t)
    (hi : hget h i = some n) : hget (hsetPrev h i p) i = some { n with prev := p } := by
  simp [hsetPrev, hi, hget_hset]

theorem hget_hsetNext_self (h : Heap) (i : Nat) (q : Option Nat) (n : list_node_t)
    (hi : hget h i = some n) : hget (hsetNext h i q) i = some { n with next := q } := by
  simp [hsetNext, hi, hget_hset]

theorem hget_hsetPrev_ne (h : Heap) (i j : Nat) (p : Option Nat) (hij : i ≠ j) :
    hget (hsetPrev h i p) j = hget h j := by
  unfold hsetPrev
  cases hi : hget h i with
  | none => rfl
  | some n => simp [hget_hset, hij]

theorem hget_hsetNext_ne (h : Heap) (i j : Nat) (q : Option Nat) (hij : i ≠ j) :
    hget (hsetNext h i q) j = hget h j := by
  unfold hsetNext
  cases hi : hget h i with
  | none => rfl
  | some n => simp [hget_hset, hij]

theorem hget_herase (h : Heap) (i j : Nat) :
    hget (herase h i) j = if i = j then none else hget h j := by
  induction h with
  | nil => simp [herase, hget]
  | cons e r ih =>
    obtain ⟨k, n⟩ := e
    by_cases hk : k = i
    · subst hk
      by_cases hj : k = j
      · subst hj
        simp [herase, hget, ih]
      · simp [herase, hget, hj, ih]
    · by_cases hj : k = j
      · subst hj
        have hij : ¬ i = k := fun hh => hk hh.symm
        simp [herase, hget, hk, hij]
      · simp [herase, hget, hk, hj, ih]

theorem valAt_hsetPrev (h : Heap) (i j : Nat) (p : Option Nat) :
    valAt (hsetPrev h i p) j = valAt h j := by
  by_cases hij : i = j
  · subst hij
    unfold valAt hsetPrev
    cases hi : hget h i with
    | none => simp [hi]
    | some n => simp [hget_hset, hi]
  · unfold valAt
    rw [hget_hsetPrev_ne h i j p hij]

theorem valAt_hsetNext (h : Heap) (i j : Nat) (q : Option Nat) :
    valAt (hsetNext h i q) j = valAt h j := by
  by_cases hij : i = j
  · subst hij
    unfold valAt hsetNext
    cases hi : hget h i with
    | none => simp [hi]
    | some n => simp [hget_hset, hi]
  · unfold valAt
    rw [hget_hsetNext_ne h i j q hij]

theorem segOk_nil (h : Heap) (p q : Option Nat) : segOk h p [] q = true := rfl

theorem segOk_cons (h : Heap) (p q : Option Nat) (i : Nat) (rest : List Nat) :
    segOk h p (i :: rest) q = true ↔
      ∃ n, hget h i = some n ∧ n.prev = p ∧ n.next = headCtx rest q ∧
        segOk h (some i) rest q = true := by
  have hdef : segOk h p (i :: rest) q =
      (match hget h i with
       | none => false
       | some n => (n.prev == p) && (n.next == headCtx rest q) && segOk h (some i) rest q) := rfl
  rw [hdef]
  cases hi : hget h i with
  | none => simp
  | some n =>
    simp only [Bool.and_eq_true, beq_iff_eq]
    constructor
    · rintro ⟨⟨h1, h2⟩, h3⟩
      exact ⟨n, rfl, h1, h2, h3⟩
    · rintro ⟨m, hm, h1, h2, h3⟩
      cases Option.some.inj hm
      exact ⟨⟨h1, h2⟩, h3⟩

theorem segOk_singleton (h : Heap) (p q : Option Nat) (i : Nat) :
    segOk h p [i] q = true ↔ ∃ n, hget h i = some n ∧ n.prev = p ∧ n.next = q := by
  rw [segOk_cons]
  constructor
  · rintro ⟨n, hn, hp, hq, _⟩
    exact ⟨n, hn, hp, hq⟩
  · rintro ⟨n, hn, hp, hq⟩
    exact ⟨n, hn, hp, hq, rfl⟩

theorem lastCtx_none (l : List Nat) : lastCtx none l = l.getLast? := by
  unfold lastCtx
  cases l.getLast? <;> rfl

theorem getLast?_cons_eq (b : Nat) (r : List Nat) :
    (b :: r).getLast? = (match r.getLast? with | some x => some x | none => some b) := by
  induction r generalizing b with
  | nil => rfl
  | cons c r' ih =>
    rw [List.getLast?_cons_cons, ih c]
    cases hr : r'.getLast? <;> rfl

theorem lastCtx_append_cons (p : Option Nat) (l : List Nat) (b : Nat) (r : List Nat) :
    lastCtx p (l ++ b :: r) = lastCtx (some b) r := by
  unfold lastCtx
  rw [List.getLast?_append_cons, getLast?_cons_eq]
  cases hr : r.getLast? <;> rfl

theorem segOk_append (h : Heap) (l : List Nat) :
    ∀ (r : List Nat) (p q : Option Nat),
      segOk h p (l ++ r) q = (segOk h p l (headCtx r q) && segOk h (lastCtx p l) r q) := by
  induction l with
  | nil =>
    intro r p q
    simp [segOk, lastCtx]
  | cons i l' ih =>
    intro r p q
    have hcons : ∀ (p' : Option Nat) (rest : List Nat) (q' : Option Nat),
        segOk h p' (i :: rest) q' =
          (match hget h i with
           | none => false
           | some n =>
             (n.prev == p') && (n.next == headCtx rest q') && segOk h (some i) rest q') :=
      fun _ _ _ => rfl
    have hl : (i :: l') ++ r = i :: (l' ++ r) := rfl
    rw [hl, hcons, hcons]
    cases hi : hget h i with
    | none => rfl
    | some n =>
      rw [ih r (some i) q]
      have hctx : lastCtx p (i :: l') = lastCtx (some i) l' := by
        have h0 := lastCtx_append_cons p [] i l'
        simpa using h0
      have hhead : headCtx (l' ++ r) q = headCtx l' (headCtx r q) := by
        cases l' <;> rfl
      rw [hctx, hhead]
      cases l' with
      | nil =>
        simp [headCtx, segOk, Bool.and_assoc]
      | cons j l'' =>
        simp [headCtx, Bool.and_assoc]

theorem segOk_congr (h h' : Heap) (ids : List Nat)
    (hag : ∀ i ∈ ids, hget h' i = hget h i) :
    ∀ p q, segOk h' p ids q = segOk h p ids q := by
  induction ids with
  | nil => intro p q; rfl
  | cons i rest ih =>
    intro p q
    unfold segOk
    rw [hag i (List.mem_cons_self i rest)]
    cases hget h i with
    | none => rfl
    | some n =>
      rw [ih (fun j hj => hag j (List.mem_cons_of_mem i hj)) (some i) q]

theorem segOk_mem_get (h : Heap) (ids : List Nat) :
    ∀ p q, segOk h p ids q = true → ∀ i ∈ ids, ∃ n, hget h i = some n := by
  induction ids with
  | nil => intro p q _ i hi; cases hi
  | cons j rest ih =>
    intro p q hseg i hi
    rw [segOk_cons] at hseg
    obtain ⟨n, hn, _, _, hrest⟩ := hseg
    rcases List.mem_cons.mp hi with hij | hmem
    · exact hij ▸ ⟨n, hn⟩
    · exact ih (some j) q hrest i hmem

theorem atLoop_none (h : Heap) (d : list_direction_t) (k : Nat) :
    atLoop h k ⟨none, d⟩ = none := by
  induction k with
  | zero => rfl
  | succ k ih => exact ih

theorem atLoop_head (h : Heap) (ids : List Nat) :
    ∀ (p : Option Nat), segOk h p ids none = true →
      ∀ k, atLoop h k ⟨ids.head?, LIST_HEAD⟩ = ids[k]? := by
  induction ids with
  | nil =>
    intro p _ k
    show atLoop h k ⟨none, LIST_HEAD⟩ = _
    rw [atLoop_none]
    simp
  | cons i rest ih =>
    intro p hseg k
    rw [segOk_cons] at hseg
    obtain ⟨n, hn, hp, hnx, hrest⟩ := hseg
    have hnext : n.next = rest.head? := by
      rw [hnx]; cases rest <;> rfl
    cases k with
    | zero => simp [atLoop, list_iterator_next]
    | succ k =>
      have hstep : (list_iterator_next h ⟨some i, LIST_HEAD⟩).1 = ⟨n.next, LIST_HEAD⟩ := by
        simp [list_iterator_next, hn]
      have h1 : (i :: rest)[k + 1]? = rest[k]? := by simp
      have h2 : atLoop h (k + 1) ⟨(i :: rest).head?, LIST_HEAD⟩ =
          atLoop h k ⟨n.next, LIST_HEAD⟩ := by
        show atLoop h k (list_iterator_next h ⟨some i, LIST_HEAD⟩).1 = _
        rw [hstep]
      rw [h1, h2, hnext]
      exact ih (some i) hrest k

theorem atLoop_tail (h : Heap) (ids : List Nat) :
    ∀ (q : Option Nat), segOk h none ids q = true →
      ∀ k, atLoop h k ⟨ids.getLast?, LIST_TAIL⟩ = ids.reverse[k]? := by
  induction ids using List.reverseRecOn with
  | nil =>
    intro q _ k
    show atLoop h k ⟨none, LIST_TAIL⟩ = _
    rw [atLoop_none]
    simp
  | append_singleton init t ih =>
    intro q hseg k
    rw [segOk_append] at hseg
    simp only [Bool.and_eq_true] at hseg
    obtain ⟨hinit, ht⟩ := hseg
    rw [segOk_singleton] at ht
    obtain ⟨n, hn, hp, hnx⟩ := ht
    have hlast : (init ++ [t]).getLast? = some t := by simp
    rw [hlast]
    cases k with
    | zero => simp [atLoop, list_iterator_next, hn]
    | succ k =>
      show atLoop h k (list_iterator_next h ⟨some t, LIST_TAIL⟩).1 = _
      have hstep : (list_iterator_next h ⟨some t, LIST_TAIL⟩).1 = ⟨n.prev, LIST_TAIL⟩ := by
        simp [list_iterator_next, hn]
      have hprev : n.prev = init.getLast? := by rw [hp, lastCtx_none]
      have hrev : (init ++ [t]).reverse[k + 1]? = init.reverse[k]? := by
        simp
      rw [hstep, hprev, hrev]
      exact ih (headCtx [t] q) hinit k

theorem scanLoop_spec (h : Heap) (brk : list_node_t → Bool) (ids : List Nat) :
    ∀ (p : Option Nat) (fuel : Nat), segOk h p ids none = true → ids.length ≤ fuel →
      scanLoop h brk fuel ⟨ids.head?, LIST_HEAD⟩ = ids.find? (brkAt h brk) := by
  induction ids with
  | nil =>
    intro p fuel _ _
    cases fuel with
    | zero => rfl
    | succ f => rfl
  | cons i rest ih =>
    intro p fuel hseg hlen
    rw [segOk_cons] at hseg
    obtain ⟨n, hn, hp, hnx, hrest⟩ := hseg
    have hnext : n.next = rest.head? := by
      rw [hnx]; cases rest <;> rfl
    cases fuel with
    | zero => simp at hlen
    | succ f =>
      have hunf : scanLoop h brk (f + 1) ⟨(i :: rest).head?, LIST_HEAD⟩ =
          (match list_iterator_next h ⟨some i, LIST_HEAD⟩ with
           | (_, none) => none
           | (it', some j) =>
             match hget h j with
             | none => none
             | some m => if brk m then some j else scanLoop h brk f it') := rfl
      have hstep : list_iterator_next h ⟨some i, LIST_HEAD⟩ = (⟨n.next, LIST_HEAD⟩, some i) := by
        simp [list_iterator_next, hn]
      rw [hunf, hstep]
      show (match hget h i with
            | none => none
            | some m => if brk m then some i else scanLoop h brk f ⟨n.next, LIST_HEAD⟩) = _
      rw [hn, List.find?_cons]
      have hbrk : brkAt h brk i = brk n := by simp [brkAt, hn]
      cases hb : brk n with
      | true => simp [hbrk, hb]
      | false =>
        have hlen' : rest.length ≤ f := by simpa using hlen
        rw [hnext, ih (some i) f hrest hlen']
        simp [hbrk, hb]

theorem collectNext_spec (h : Heap) (ids : List Nat) :
    ∀ (p : Option Nat) (fuel : Nat), segOk h p ids none = true → ids.length ≤ fuel →
      collectNext h fuel ids.head? = ids := by
  induction ids with
  | nil =>
    intro p fuel _ _
    cases fuel <;> rfl
  | cons i rest ih =>
    intro p fuel hseg hlen
    rw [segOk_cons] at hseg
    obtain ⟨n, hn, hp, hnx, hrest⟩ := hseg
    have hnext : n.next = rest.head? := by
      rw [hnx]; cases rest <;> rfl
    cases fuel with
    | zero => simp at hlen
    | succ f =>
      have hunf : collectNext h (f + 1) (some i) = i :: collectNext h f n.next := by
        simp [collectNext, hn]
      show collectNext h (f + 1) (some i) = i :: rest
      have hlen' : rest.length ≤ f := by simpa using hlen
      rw [hunf, hnext, ih (some i) f hrest hlen']

theorem find?_some_split (p : Nat → Bool) (ids : List Nat) :
    ∀ b, ids.find? p = some b →
      ∃ l r, ids = l ++ b :: r ∧ (∀ i ∈ l, p i = false) ∧ p b = true := by
  induction ids with
  | nil => intro b h; cases h
  | cons i rest ih =>
    intro b h
    rw [List.find?_cons] at h
    cases hp : p i with
    | true =>
      rw [hp] at h
      cases Option.some.inj h
      refine ⟨[], rest, rfl, ?_, hp⟩
      intro j hj
      cases hj
    | false =>
      rw [hp] at h
      obtain ⟨l, r, heq, hall, hb⟩ := ih b h
      refine ⟨i :: l, r, by rw [heq]; rfl, ?_, hb⟩
      intro j hj
      rcases List.mem_cons.mp hj with rfl | hj
      · exact hp
      · exact hall j hj

theorem head?_append_left (l l' : List Nat) (h : l ≠ []) : (l ++ l').head? = l.head? := by
  cases l with
  | nil => exact absurd rfl h
  | cons a t => rfl

theorem list_rpush_rep (s : State) (ids : List Nat) (nid : Nat) (nd : list_node_t)
    (hrep : ListRep s ids) (hn : hget s.heap nid = some nd) (hmem : nid ∉ ids)
    (hb : nid < s.nextId) :
    (list_rpush s nid).2 = nid ∧
    ListRep (list_rpush s nid).1 (ids ++ [nid]) ∧
    (list_rpush s nid).1.freed = s.freed ∧
    (list_rpush s nid).1.nextId = s.nextId ∧
    (list_rpush s nid).1.lst.free = s.lst.free ∧
    (list_rpush s nid).1.lst.compare = s.lst.compare ∧
    (list_rpush s nid).1.lst.matchCb = s.lst.matchCb ∧
    ∀ j, valAt (list_rpush s nid).1.heap j = valAt s.heap j := by
  obtain ⟨hseg, hhead, htail, hlen, hnodup, hbound⟩ := hrep
  rcases List.eq_nil_or_concat ids with rfl | ⟨init, t, rfl⟩
  · have hlen0 : s.lst.len = 0 := by simpa using hlen
    have hres : list_rpush s nid = ({ s with heap := hsetNext (hsetPrev s.heap nid none) nid none, lst := { s.lst with head := some nid, tail := some nid, len := s.lst.len + 1 } }, nid) := by
      simp [list_rpush, hlen0]
    have hg1 : hget (hsetPrev s.heap nid none) nid = some { nd with prev := none } :=
      hget_hsetPrev_self _ _ _ _ hn
    have hg2 : hget (hsetNext (hsetPrev s.heap nid none) nid none) nid =
        some { prev := none, next := none, val := nd.val } :=
      hget_hsetNext_self _ _ _ _ hg1
    rw [hres]
    refine ⟨rfl, ⟨?_, rfl, rfl, by simpa using hlen0, by simp, ?_⟩, rfl, rfl, rfl, rfl, rfl, ?_⟩
    · rw [List.nil_append, segOk_singleton]
      exact ⟨_, hg2, rfl, rfl⟩
    · intro i hi
      simp only [List.nil_append, List.mem_singleton] at hi
      exact hi ▸ hb
    · intro j
      rw [valAt_hsetNext, valAt_hsetPrev]
  · simp only [List.concat_eq_append] at hmem hseg hhead htail hlen hnodup hbound ⊢
    have hlenne : s.lst.len ≠ 0 := by rw [hlen]; simp
    have htail' : s.lst.tail = some t := by rw [htail]; simp
    have hres : list_rpush s nid = ({ s with heap := hsetNext (hsetNext (hsetPrev s.heap nid (some t)) nid none) t (some nid), lst := { s.lst with tail := some nid, len := s.lst.len + 1 } }, nid) := by
      simp [list_rpush, hlenne, htail']
    have htmem : t ∈ init ++ [t] := by simp
    have hnid_ne_t : nid ≠ t := fun he => hmem (he ▸ htmem)
    rw [segOk_append] at hseg
    simp only [Bool.and_eq_true] at hseg
    obtain ⟨hseg1, hseg2⟩ := hseg
    rw [segOk_singleton] at hseg2
    obtain ⟨tn, htn, htnprev, htnnext⟩ := hseg2
    have hg_nid_1 : hget (hsetPrev s.heap nid (some t)) nid = some { nd with prev := some t } :=
      hget_hsetPrev_self _ _ _ _ hn
    have hg_nid_2 : hget (hsetNext (hsetPrev s.heap nid (some t)) nid none) nid =
        some { prev := some t, next := none, val := nd.val } :=
      hget_hsetNext_self _ _ _ _ hg_nid_1
    have hg_nid : hget (hsetNext (hsetNext (hsetPrev s.heap nid (some t)) nid none)
        t (some nid)) nid = some { prev := some t, next := none, val := nd.val } := by
      rw [hget_hsetNext_ne _ _ _ _ (fun he => hnid_ne_t he.symm)]
      exact hg_nid_2
    have hg_t_0 : hget (hsetNext (hsetPrev s.heap nid (some t)) nid none) t =
        hget s.heap t := by
      rw [hget_hsetNext_ne _ _ _ _ hnid_ne_t, hget_hsetPrev_ne _ _ _ _ hnid_ne_t]
    have hg_t : hget (hsetNext (hsetNext (hsetPrev s.heap nid (some t)) nid none)
        t (some nid)) t = some { tn with next := some nid } := by
      have := hg_t_0.trans htn
      exact hget_hsetNext_self _ _ _ _ this
    have htnotinit : t ∉ init := by
      have hnd := hnodup
      rw [List.nodup_append] at hnd
      exact fun hti => hnd.2.2 hti (by simp)
    have hinit_frame : ∀ j ∈ init,
        hget (hsetNext (hsetNext (hsetPrev s.heap nid (some t)) nid none) t (some nid)) j =
          hget s.heap j := by
      intro j hj
      have hj_ne_nid : nid ≠ j := fun he => hmem (he ▸ List.mem_append_left _ hj)
      have hj_ne_t : t ≠ j := fun he => htnotinit (he ▸ hj)
      rw [hget_hsetNext_ne _ _ _ _ hj_ne_t, hget_hsetNext_ne _ _ _ _ hj_ne_nid,
        hget_hsetPrev_ne _ _ _ _ hj_ne_nid]
    rw [hres]
    refine ⟨rfl, ⟨?_, ?_, ?_, ?_, ?_, ?_⟩, rfl, rfl, rfl, rfl, rfl, ?_⟩
    · show segOk _ none ((init ++ [t]) ++ [nid]) none = true
      rw [segOk_append]
      simp only [Bool.and_eq_true]
      constructor
      · show segOk _ none (init ++ [t]) (headCtx [nid] none) = true
        rw [segOk_append]
        simp only [Bool.and_eq_true]
        constructor
        · show segOk _ none init (headCtx [t] (headCtx [nid] none)) = true
          have : headCtx [t] (headCtx [nid] none) = some t := rfl
          rw [this, segOk_congr _ _ _ hinit_frame]
          exact hseg1
        · show segOk _ (lastCtx none init) [t] (headCtx [nid] none) = true
          rw [segOk_singleton]
          exact ⟨_, hg_t, htnprev, rfl⟩
      · show segOk _ (lastCtx none (init ++ [t])) [nid] none = true
        have : lastCtx none (init ++ [t]) = some t := by
          rw [lastCtx_none]; simp
        rw [this, segOk_singleton]
        exact ⟨_, hg_nid, rfl, rfl⟩
    · show s.lst.head = ((init ++ [t]) ++ [nid]).head?
      rw [head?_append_left _ _ (by simp)]
      exact hhead
    · show some nid = ((init ++ [t]) ++ [nid]).getLast?
      simp
    · show s.lst.len + 1 = ((init ++ [t]) ++ [nid]).length
      rw [hlen]; simp
    · have h1 : nid ∉ init ++ [t] := hmem
      rw [List.nodup_append]
      refine ⟨hnodup, by simp, ?_⟩
      intro a ha hb'
      simp only [List.mem_singleton] at hb'
      subst hb'
      exact h1 ha
    · intro i hi
      rcases List.mem_append.mp hi with hi | hi
      · exact hbound i hi
      · simp only [List.mem_singleton] at hi
        exact hi ▸ hb
    · intro j
      rw [valAt_hsetNext, valAt_hsetNext, valAt_hsetPrev]

theorem getLast?_cons_of_ne_nil (a : Nat) (l : List Nat) (h : l ≠ []) :
    (a :: l).getLast? = l.getLast? := by
  rw [getLast?_cons_eq]
  cases hl : l.getLast? with
  | some x => rfl
  | none =>
    cases l with
    | nil => exact absurd rfl h
    | cons b l' =>
      rw [getLast?_cons_eq] at hl
      cases hl' : l'.getLast? with
      | some y => rw [hl'] at hl; cases hl
      | none => rw [hl'] at hl; cases hl

theorem emptyState_rep : ListRep emptyState [] := by
  refine ⟨rfl, rfl, rfl, rfl, List.nodup_nil, ?_⟩
  intro i hi
  cases hi

theorem emptyStateH_rep : ListRep emptyStateH [] := by
  refine ⟨rfl, rfl, rfl, rfl, List.nodup_nil, ?_⟩
  intro i hi
  cases hi

theorem list_node_new_zero (s : State) : list_node_new s 0 = (s, none) := by
  simp [list_node_new]

theorem list_node_new_rep (s : State) (ids : List Nat) (v : Nat) (hrep : ListRep s ids)
    (hv : v ≠ 0) :
    (list_node_new s v).2 = some s.nextId ∧
    ListRep (list_node_new s v).1 ids ∧
    hget (list_node_new s v).1.heap s.nextId = some ⟨none, none, v⟩ ∧
    s.nextId ∉ ids ∧
    s.nextId < (list_node_new s v).1.nextId ∧
    (list_node_new s v).1.freed = s.freed ∧
    (list_node_new s v).1.lst = s.lst ∧
    ∀ j ∈ ids, valAt (list_node_new s v).1.heap j = valAt s.heap j := by
  obtain ⟨hseg, hhead, htail, hlen, hnodup, hbound⟩ := hrep
  have hres : list_node_new s v = ({ s with heap := hset s.heap s.nextId ⟨none, none, v⟩, nextId := s.nextId + 1 }, some s.nextId) := by
    simp [list_node_new, hv]
  have hfresh : s.nextId ∉ ids := fun hmem => lt_irrefl _ (hbound _ hmem)
  have hframe : ∀ j ∈ ids, hget (hset s.heap s.nextId ⟨none, none, v⟩) j = hget s.heap j := by
    intro j hj
    rw [hget_hset]
    have : s.nextId ≠ j := fun he => hfresh (he ▸ hj)
    simp [this]
  rw [hres]
  refine ⟨rfl, ⟨?_, hhead, htail, hlen, hnodup, ?_⟩, ?_, hfresh, Nat.lt_succ_self _, rfl, rfl, ?_⟩
  · rw [segOk_congr _ _ _ hframe]
    exact hseg
  · intro i hi
    exact Nat.lt_succ_of_lt (hbound i hi)
  · show hget (hset s.heap s.nextId ⟨none, none, v⟩) s.nextId = some ⟨none, none, v⟩
    rw [hget_hset]
    simp
  · intro j hj
    show valAt (hset s.heap s.nextId ⟨none, none, v⟩) j = valAt s.heap j
    unfold valAt
    rw [hframe j hj]

theorem list_lpush_rep (s : State) (ids : List Nat) (nid : Nat) (nd : list_node_t)
    (hrep : ListRep s ids) (hn : hget s.heap nid = some nd) (hmem : nid ∉ ids)
    (hb : nid < s.nextId) :
    (list_lpush s nid).2 = nid ∧
    ListRep (list_lpush s nid).1 (nid :: ids) ∧
    (list_lpush s nid).1.freed = s.freed ∧
    (list_lpush s nid).1.nextId = s.nextId ∧
    (list_lpush s nid).1.lst.free = s.lst.free ∧
    (list_lpush s nid).1.lst.compare = s.lst.compare ∧
    (list_lpush s nid).1.lst.matchCb = s.lst.matchCb ∧
    ∀ j, valAt (list_lpush s nid).1.heap j = valAt s.heap j := by
  obtain ⟨hseg, hhead, htail, hlen, hnodup, hbound⟩ := hrep
  cases ids with
  | nil =>
    have hlen0 : s.lst.len = 0 := by simpa using hlen
    have hres : list_lpush s nid = ({ s with heap := hsetNext (hsetPrev s.heap nid none) nid none, lst := { s.lst with head := some nid, tail := some nid, len := s.lst.len + 1 } }, nid) := by
      simp [list_lpush, hlen0]
    have hg1 : hget (hsetPrev s.heap nid none) nid = some { nd with prev := none } :=
      hget_hsetPrev_self _ _ _ _ hn
    have hg2 : hget (hsetNext (hsetPrev s.heap nid none) nid none) nid =
        some { prev := none, next := none, val := nd.val } :=
      hget_hsetNext_self _ _ _ _ hg1
    rw [hres]
    refine ⟨rfl, ⟨?_, rfl, rfl, by simpa using hlen0, by simp, ?_⟩, rfl, rfl, rfl, rfl, rfl, ?_⟩
    · rw [segOk_singleton]
      exact ⟨_, hg2, rfl, rfl⟩
    · intro i hi
      simp only [List.mem_singleton] at hi
      exact hi ▸ hb
    · intro j
      rw [valAt_hsetNext, valAt_hsetPrev]
  | cons hd rest =>
    have hlenne : s.lst.len ≠ 0 := by rw [hlen]; simp
    have hhead' : s.lst.head = some hd := hhead
    have hres : list_lpush s nid = ({ s with heap := hsetPrev (hsetPrev (hsetNext s.heap nid (some hd)) nid none) hd (some nid), lst := { s.lst with head := some nid, len := s.lst.len + 1 } }, nid) := by
      simp [list_lpush, hlenne, hhead']
    rw [segOk_cons] at hseg
    obtain ⟨hdn, hhd, hhdprev, hhdnext, hrest⟩ := hseg
    have hnid_ne_hd : nid ≠ hd := fun he => hmem (he ▸ List.mem_cons_self _ _)
    have hhd_notin_rest : hd ∉ rest := (List.nodup_cons.mp hnodup).1
    have hg_nid_1 : hget (hsetNext s.heap nid (some hd)) nid = some { nd with next := some hd } :=
      hget_hsetNext_self _ _ _ _ hn
    have hg_nid_2 : hget (hsetPrev (hsetNext s.heap nid (some hd)) nid none) nid =
        some { prev := none, next := some hd, val := nd.val } := by
      have := hget_hsetPrev_self _ _ none _ hg_nid_1
      exact this
    have hg_nid : hget (hsetPrev (hsetPrev (hsetNext s.heap nid (some hd)) nid none) hd (some nid)) nid = some { prev := none, next := some hd, val := nd.val } := by
      rw [hget_hsetPrev_ne _ _ _ _ hnid_ne_hd.symm]
      exact hg_nid_2
    have hg_hd_0 : hget (hsetPrev (hsetNext s.heap nid (some hd)) nid none) hd = hget s.heap hd := by
      rw [hget_hsetPrev_ne _ _ _ _ hnid_ne_hd, hget_hsetNext_ne _ _ _ _ hnid_ne_hd]
    have hg_hd : hget (hsetPrev (hsetPrev (hsetNext s.heap nid (some hd)) nid none) hd (some nid)) hd = some { hdn with prev := some nid } := by
      have := hg_hd_0.trans hhd
      exact hget_hsetPrev_self _ _ _ _ this
    have hrest_frame : ∀ j ∈ rest,
        hget (hsetPrev (hsetPrev (hsetNext s.heap nid (some hd)) nid none) hd (some nid)) j =
          hget s.heap j := by
      intro j hj
      have hj_ne_nid : nid ≠ j := fun he => hmem (he ▸ List.mem_cons_of_mem _ hj)
      have hj_ne_hd : hd ≠ j := fun he => hhd_notin_rest (he ▸ hj)
      rw [hget_hsetPrev_ne _ _ _ _ hj_ne_hd, hget_hsetPrev_ne _ _ _ _ hj_ne_nid,
        hget_hsetNext_ne _ _ _ _ hj_ne_nid]
    rw [hres]
    refine ⟨rfl, ⟨?_, rfl, ?_, ?_, ?_, ?_⟩, rfl, rfl, rfl, rfl, rfl, ?_⟩
    · rw [segOk_cons]
      refine ⟨_, hg_nid, rfl, rfl, ?_⟩
      rw [segOk_cons]
      refine ⟨_, hg_hd, rfl, ?_, ?_⟩
      · show hdn.next = headCtx rest none
        exact hhdnext
      · rw [segOk_congr _ _ _ hrest_frame]
        exact hrest
    · show s.lst.tail = (nid :: hd :: rest).getLast?
      rw [getLast?_cons_of_ne_nil _ _ (by simp)]
      exact htail
    · show s.lst.len + 1 = (nid :: hd :: rest).length
      rw [hlen]; rfl
    · rw [List.nodup_cons]
      exact ⟨hmem, hnodup⟩
    · intro i hi
      rcases List.mem_cons.mp hi with rfl | hi
      · exact hb
      · exact hbound i hi
    · intro j
      rw [valAt_hsetPrev, valAt_hsetPrev, valAt_hsetNext]

theorem list_lpop_empty (s : State) (h : s.lst.len = 0) : list_lpop s = (s, none) := by
  simp [list_lpop, h]

theorem list_rpop_empty (s : State) (h : s.lst.len = 0) : list_rpop s = (s, none) := by
  simp [list_rpop, h]

theorem list_lpop_rep (s : State) (hd : Nat) (rest : List Nat)
    (hrep : ListRep s (hd :: rest)) :
    (list_lpop s).2 = some hd ∧
    ListRep (list_lpop s).1 rest ∧
    (list_lpop s).1.freed = s.freed ∧
    (list_lpop s).1.nextId = s.nextId ∧
    (list_lpop s).1.lst.free = s.lst.free ∧
    (list_lpop s).1.lst.compare = s.lst.compare ∧
    (list_lpop s).1.lst.matchCb = s.lst.matchCb ∧
    hget (list_lpop s).1.heap hd = some ⟨none, none, valAt s.heap hd⟩ ∧
    ∀ j, valAt (list_lpop s).1.heap j = valAt s.heap j := by
  obtain ⟨hseg, hhead, htail, hlen, hnodup, hbound⟩ := hrep
  rw [segOk_cons] at hseg
  obtain ⟨hdn, hhd, hhdprev, hhdnext, hrest⟩ := hseg
  have hlenne : ¬ (s.lst.len = 0) := by rw [hlen]; simp
  have hhead' : s.lst.head = some hd := hhead
  have hval : valAt s.heap hd = hdn.val := by unfold valAt; rw [hhd]
  have hhd_notin_rest : hd ∉ rest := (List.nodup_cons.mp hnodup).1
  cases rest with
  | nil =>
    have hlen1 : s.lst.len - 1 = 0 := by rw [hlen]; rfl
    have hres : list_lpop s = ({ s with heap := hsetPrev (hsetNext s.heap hd none) hd none, lst := { s.lst with head := none, tail := none, len := s.lst.len - 1 } }, some hd) := by
      simp [list_lpop, hlenne, hhead', hlen1]
    have hg1 : hget (hsetNext s.heap hd none) hd = some { hdn with next := none } :=
      hget_hsetNext_self _ _ _ _ hhd
    have hg2 : hget (hsetPrev (hsetNext s.heap hd none) hd none) hd =
        some { prev := none, next := none, val := hdn.val } :=
      hget_hsetPrev_self _ _ _ _ hg1
    rw [hres]
    refine ⟨rfl, ⟨rfl, rfl, rfl, by simpa using hlen1, List.nodup_nil, ?_⟩, rfl, rfl, rfl, rfl, rfl, ?_, ?_⟩
    · intro i hi
      cases hi
    · rw [hval]
      exact hg2
    · intro j
      rw [valAt_hsetPrev, valAt_hsetNext]
  | cons r0 r' =>
    have hlen1 : ¬ (s.lst.len - 1 = 0) := by rw [hlen]; simp
    have hhdnext' : hdn.next = some r0 := hhdnext
    have hres : list_lpop s = ({ s with heap := hsetPrev (hsetNext (hsetPrev s.heap r0 none) hd none) hd none, lst := { s.lst with head := some r0, len := s.lst.len - 1 } }, some hd) := by
      simp [list_lpop, hlenne, hhead', hhd, hhdnext', hlen1]
    rw [segOk_cons] at hrest
    obtain ⟨r0n, hr0, hr0prev, hr0next, hrest'⟩ := hrest
    have hhd_ne_r0 : hd ≠ r0 := fun he => hhd_notin_rest (he ▸ List.mem_cons_self _ _)
    have hhd_notin_r' : hd ∉ r' := fun hj => hhd_notin_rest (List.mem_cons_of_mem _ hj)
    have hr0_notin_r' : r0 ∉ r' := (List.nodup_cons.mp ((List.nodup_cons.mp hnodup).2)).1
    have hg_r0 : hget (hsetPrev (hsetNext (hsetPrev s.heap r0 none) hd none) hd none) r0 =
        some { r0n with prev := none } := by
      rw [hget_hsetPrev_ne _ _ _ _ hhd_ne_r0, hget_hsetNext_ne _ _ _ _ hhd_ne_r0]
      exact hget_hsetPrev_self _ _ _ _ hr0
    have hg_hd_0 : hget (hsetPrev s.heap r0 none) hd = hget s.heap hd :=
      hget_hsetPrev_ne _ _ _ _ (fun he => hhd_ne_r0 he.symm)
    have hg_hd_1 : hget (hsetNext (hsetPrev s.heap r0 none) hd none) hd =
        some { hdn with next := none } :=
      hget_hsetNext_self _ _ _ _ (hg_hd_0.trans hhd)
    have hg_hd : hget (hsetPrev (hsetNext (hsetPrev s.heap r0 none) hd none) hd none) hd =
        some { prev := none, next := none, val := hdn.val } :=
      hget_hsetPrev_self _ _ _ _ hg_hd_1
    have hframe : ∀ j ∈ r',
        hget (hsetPrev (hsetNext (hsetPrev s.heap r0 none) hd none) hd none) j =
          hget s.heap j := by
      intro j hj
      have hj_ne_hd : hd ≠ j := fun he => hhd_notin_r' (he ▸ hj)
      have hj_ne_r0 : r0 ≠ j := fun he => hr0_notin_r' (he ▸ hj)
      rw [hget_hsetPrev_ne _ _ _ _ hj_ne_hd, hget_hsetNext_ne _ _ _ _ hj_ne_hd,
        hget_hsetPrev_ne _ _ _ _ hj_ne_r0]
    rw [hres]
    refine ⟨rfl, ⟨?_, rfl, ?_, ?_, ?_, ?_⟩, rfl, rfl, rfl, rfl, rfl, ?_, ?_⟩
    · rw [segOk_cons]
      refine ⟨_, hg_r0, rfl, ?_, ?_⟩
      · show r0n.next = headCtx r' none
        exact hr0next
      · rw [segOk_congr _ _ _ hframe]
        exact hrest'
    · show s.lst.tail = (r0 :: r').getLast?
      rw [htail, getLast?_cons_of_ne_nil _ _ (by simp)]
    · show s.lst.len - 1 = (r0 :: r').length
      rw [hlen]; rfl
    · exact (List.nodup_cons.mp hnodup).2
    · intro i hi
      exact hbound i (List.mem_cons_of_mem _ hi)
    · rw [hval]
      exact hg_hd
    · intro j
      rw [valAt_hsetPrev, valAt_hsetNext, valAt_hsetPrev]

theorem list_rpop_rep (s : State) (init : List Nat) (t : Nat)
    (hrep : ListRep s (init ++ [t])) :
    (list_rpop s).2 = some t ∧
    ListRep (list_rpop s).1 init ∧
    (list_rpop s).1.freed = s.freed ∧
    (list_rpop s).1.nextId = s.nextId ∧
    (list_rpop s).1.lst.free = s.lst.free ∧
    (list_rpop s).1.lst.compare = s.lst.compare ∧
    (list_rpop s).1.lst.matchCb = s.lst.matchCb ∧
    hget (list_rpop s).1.heap t = some ⟨none, none, valAt s.heap t⟩ ∧
    ∀ j, valAt (list_rpop s).1.heap j = valAt s.heap j := by
  obtain ⟨hseg, hhead, htail, hlen, hnodup, hbound⟩ := hrep
  rw [segOk_append] at hseg
  simp only [Bool.and_eq_true] at hseg
  obtain ⟨hseg1, hseg2⟩ := hseg
  rw [segOk_singleton] at hseg2
  obtain ⟨tn, htn, htnprev, htnnext⟩ := hseg2
  have hlenne : ¬ (s.lst.len = 0) := by rw [hlen]; simp
  have htail' : s.lst.tail = some t := by rw [htail]; simp
  have hval : valAt s.heap t = tn.val := by unfold valAt; rw [htn]
  have ht_notin_init : t ∉ init := by
    have hnd := hnodup
    rw [List.nodup_append] at hnd
    exact fun hti => hnd.2.2 hti (by simp)
  rcases List.eq_nil_or_concat init with rfl | ⟨init0, q, rfl⟩
  · have hlen1 : s.lst.len - 1 = 0 := by rw [hlen]; rfl
    have htnprev' : tn.prev = none := by
      rw [htnprev]; rfl
    have hres : list_rpop s = ({ s with heap := hsetPrev (hsetNext s.heap t none) t none, lst := { s.lst with head := none, tail := none, len := s.lst.len - 1 } }, some t) := by
      simp [list_rpop, hlenne, htail', hlen1]
    have hg1 : hget (hsetNext s.heap t none) t = some { tn with next := none } :=
      hget_hsetNext_self _ _ _ _ htn
    have hg2 : hget (hsetPrev (hsetNext s.heap t none) t none) t =
        some { prev := none, next := none, val := tn.val } :=
      hget_hsetPrev_self _ _ _ _ hg1
    rw [hres]
    refine ⟨rfl, ⟨rfl, rfl, rfl, by simpa using hlen1, List.nodup_nil, ?_⟩, rfl, rfl, rfl, rfl, rfl, ?_, ?_⟩
    · intro i hi
      cases hi
    · rw [hval]
      exact hg2
    · intro j
      rw [valAt_hsetPrev, valAt_hsetNext]
  · simp only [List.concat_eq_append] at hseg1 hhead htail hlen hnodup hbound ht_notin_init ⊢
    have hlen1 : ¬ (s.lst.len - 1 = 0) := by rw [hlen]; simp
    have htnprev' : tn.prev = some q := by
      rw [htnprev, lastCtx_none]; simp
    have hres : list_rpop s = ({ s with heap := hsetPrev (hsetNext (hsetNext s.heap q none) t none) t none, lst := { s.lst with tail := some q, len := s.lst.len - 1 } }, some t) := by
      simp [list_rpop, hlenne, htail', htn, htnprev', hlen1]
    rw [segOk_append] at hseg1
    simp only [Bool.and_eq_true] at hseg1
    obtain ⟨hseg1a, hseg1b⟩ := hseg1
    rw [segOk_singleton] at hseg1b
    obtain ⟨qn, hqn, hqnprev, hqnnext⟩ := hseg1b
    have ht_ne_q : t ≠ q := fun he => ht_notin_init (he ▸ (by simp : q ∈ init0 ++ [q]))
    have hq_notin_init0 : q ∉ init0 := by
      have hnd := (List.nodup_append.mp hnodup).1
      rw [List.nodup_append] at hnd
      exact fun hqi => hnd.2.2 hqi (by simp)
    have hg_q : hget (hsetPrev (hsetNext (hsetNext s.heap q none) t none) t none) q =
        some { qn with next := none } := by
      rw [hget_hsetPrev_ne _ _ _ _ ht_ne_q, hget_hsetNext_ne _ _ _ _ ht_ne_q]
      exact hget_hsetNext_self _ _ _ _ hqn
    have hg_t_0 : hget (hsetNext s.heap q none) t = hget s.heap t :=
      hget_hsetNext_ne _ _ _ _ (fun he => ht_ne_q he.symm)
    have hg_t_1 : hget (hsetNext (hsetNext s.heap q none) t none) t =
        some { tn with next := none } :=
      hget_hsetNext_self _ _ _ _ (hg_t_0.trans htn)
    have hg_t : hget (hsetPrev (hsetNext (hsetNext s.heap q none) t none) t none) t =
        some { prev := none, next := none, val := tn.val } :=
      hget_hsetPrev_self _ _ _ _ hg_t_1
    have hframe : ∀ j ∈ init0,
        hget (hsetPrev (hsetNext (hsetNext s.heap q none) t none) t none) j =
          hget s.heap j := by
      intro j hj
      have hj_ne_t : t ≠ j := fun he => ht_notin_init (he ▸ List.mem_append_left _ hj)
      have hj_ne_q : q ≠ j := fun he => hq_notin_init0 (he ▸ hj)
      rw [hget_hsetPrev_ne _ _ _ _ hj_ne_t, hget_hsetNext_ne _ _ _ _ hj_ne_t,
        hget_hsetNext_ne _ _ _ _ hj_ne_q]
    rw [hres]
    refine ⟨rfl, ⟨?_, ?_, ?_, ?_, ?_, ?_⟩, rfl, rfl, rfl, rfl, rfl, ?_, ?_⟩
    · show segOk _ none (init0 ++ [q]) none = true
      rw [segOk_append]
      simp only [Bool.and_eq_true]
      constructor
      · show segOk _ none init0 (headCtx [q] none) = true
        have h0 : headCtx [q] none = some q := rfl
        rw [h0, segOk_congr _ _ _ hframe]
        exact hseg1a
      · show segOk _ (lastCtx none init0) [q] none = true
        rw [segOk_singleton]
        exact ⟨_, hg_q, hqnprev, rfl⟩
    · show s.lst.head = (init0 ++ [q]).head?
      rw [hhead, head?_append_left _ _ (by simp)]
    · show some q = (init0 ++ [q]).getLast?
      simp
    · show s.lst.len - 1 = (init0 ++ [q]).length
      rw [hlen]
      simp
    · exact (List.nodup_append.mp hnodup).1
    · intro i hi
      exact hbound i (List.mem_append_left _ hi)
    · rw [hval]
      exact hg_t
    · intro j
      rw [valAt_hsetPrev, valAt_hsetNext, valAt_hsetNext]

theorem valAt_herase_ne (h : Heap) (m j : Nat) (hmj : m ≠ j) :
    valAt (herase h m) j = valAt h j := by
  unfold valAt
  rw [hget_herase]
  simp [hmj]

theorem list_remove_rep (s : State) (l : List Nat) (m : Nat) (r : List Nat)
    (hrep : ListRep s (l ++ m :: r)) :
    (list_remove s m).2 = 0 ∧
    ListRep (list_remove s m).1 (l ++ r) ∧
    (list_remove s m).1.freed = s.freed ++ (if s.lst.free then [valAt s.heap m] else []) ∧
    (list_remove s m).1.nextId = s.nextId ∧
    (list_remove s m).1.lst.free = s.lst.free ∧
    (list_remove s m).1.lst.compare = s.lst.compare ∧
    (list_remove s m).1.lst.matchCb = s.lst.matchCb ∧
    ∀ j, j ≠ m → valAt (list_remove s m).1.heap j = valAt s.heap j := by
  obtain ⟨hseg, hhead, htail, hlen, hnodup, hbound⟩ := hrep
  rw [segOk_append] at hseg
  simp only [Bool.and_eq_true] at hseg
  obtain ⟨hsegL, hsegR⟩ := hseg
  rw [segOk_cons] at hsegR
  obtain ⟨mn, hm, hmprev, hmnext, hrest⟩ := hsegR
  have hval : valAt s.heap m = mn.val := by unfold valAt; rw [hm]
  have hm_notin_l : m ∉ l :=
    fun hml => (List.nodup_append.mp hnodup).2.2 hml (List.mem_cons_self _ _)
  have hm_notin_r : m ∉ r := (List.nodup_cons.mp (List.nodup_append.mp hnodup).2.1).1
  have hnodup' : (l ++ r).Nodup :=
    hnodup.sublist (List.Sublist.append_left (List.sublist_cons_self m r) l)
  have hdisj : ∀ a ∈ l, a ∉ r := by
    intro a hal har
    exact (List.nodup_append.mp hnodup).2.2 hal (List.mem_cons_of_mem _ har)
  rcases List.eq_nil_or_concat l with rfl | ⟨l0, q, rfl⟩
  · have hmprev' : mn.prev = none := by rw [hmprev]; rfl
    cases r with
    | nil =>
      have hmnext' : mn.next = none := by rw [hmnext]; rfl
      have hkey : list_remove s m = ({ s with heap := herase s.heap m, lst := { s.lst with head := none, tail := none, len := s.lst.len - 1 }, freed := s.freed ++ (if s.lst.free then [valAt s.heap m] else []) }, 0) := by
        cases hf : s.lst.free with
        | true => simp [list_remove, hm, hmprev', hmnext', hf, hval]
        | false => simp [list_remove, hm, hmprev', hmnext', hf]
      have hlen1 : s.lst.len - 1 = 0 := by simpa using congrArg (fun x => x - 1) hlen
      rw [hkey]
      refine ⟨rfl, ⟨rfl, rfl, rfl, by simpa using hlen1, List.nodup_nil, ?_⟩, rfl, rfl, rfl, rfl, rfl, ?_⟩
      · intro i hi
        cases hi
      · intro j hj
        exact valAt_herase_ne _ _ _ (fun he => hj he.symm)
    | cons b r' =>
      have hmnext' : mn.next = some b := hmnext
      rw [segOk_cons] at hrest
      obtain ⟨bn, hbn, hbnprev, hbnnext, hrest'⟩ := hrest
      have hm_ne_b : m ≠ b := fun he => hm_notin_r (he ▸ List.mem_cons_self _ _)
      have hb_notin_r' : b ∉ r' :=
        (List.nodup_cons.mp (List.nodup_cons.mp (List.nodup_append.mp hnodup).2.1).2).1
      have hkey : list_remove s m = ({ s with heap := herase (hsetPrev s.heap b none) m, lst := { s.lst with head := some b, len := s.lst.len - 1 }, freed := s.freed ++ (if s.lst.free then [valAt s.heap m] else []) }, 0) := by
        cases hf : s.lst.free with
        | true => simp [list_remove, hm, hmprev', hmnext', hf, hval]
        | false => simp [list_remove, hm, hmprev', hmnext', hf]
      have hg_b : hget (herase (hsetPrev s.heap b none) m) b = some { bn with prev := none } := by
        rw [hget_herase]
        simp only [hm_ne_b, if_false]
        exact hget_hsetPrev_self _ _ _ _ hbn
      have hframe : ∀ j ∈ r',
          hget (herase (hsetPrev s.heap b none) m) j = hget s.heap j := by
        intro j hj
        have hj_ne_m : m ≠ j := fun he => hm_notin_r (he ▸ List.mem_cons_of_mem _ hj)
        have hj_ne_b : b ≠ j := fun he => hb_notin_r' (he ▸ hj)
        rw [hget_herase]
        simp only [hj_ne_m, if_false]
        exact hget_hsetPrev_ne _ _ _ _ hj_ne_b
      rw [hkey]
      refine ⟨rfl, ⟨?_, rfl, ?_, ?_, ?_, ?_⟩, rfl, rfl, rfl, rfl, rfl, ?_⟩
      · show segOk _ none (b :: r') none = true
        rw [segOk_cons]
        refine ⟨_, hg_b, rfl, hbnnext, ?_⟩
        rw [segOk_congr _ _ _ hframe]
        exact hrest'
      · show s.lst.tail = (b :: r').getLast?
        rw [htail]
        show (m :: b :: r').getLast? = _
        rw [getLast?_cons_of_ne_nil _ _ (by simp)]
      · show s.lst.len - 1 = (b :: r').length
        rw [hlen]
        rfl
      · exact hnodup'
      · intro i hi
        exact hbound i (List.mem_cons_of_mem _ hi)
      · intro j hj
        rw [valAt_herase_ne _ _ _ (fun he => hj he.symm), valAt_hsetPrev]
  · simp only [List.concat_eq_append] at hmprev hsegL hhead htail hlen hnodup hbound hm_notin_l hnodup' hdisj ⊢
    have hmprev' : mn.prev = some q := by
      rw [hmprev, lastCtx_append_cons]
      rfl
    rw [segOk_append] at hsegL
    simp only [Bool.and_eq_true] at hsegL
    obtain ⟨hsegL0, hsegLq⟩ := hsegL
    rw [segOk_singleton] at hsegLq
    obtain ⟨qn, hqn, hqnprev, hqnnext⟩ := hsegLq
    have hm_ne_q : m ≠ q := fun he => hm_notin_l (he ▸ (by simp : q ∈ l0 ++ [q]))
    have hq_notin_l0 : q ∉ l0 := by
      have hnd := (List.nodup_append.mp hnodup).1
      rw [List.nodup_append] at hnd
      exact fun hqi => hnd.2.2 hqi (by simp)
    cases r with
    | nil =>
      have hmnext' : mn.next = none := by rw [hmnext]; rfl
      have hkey : list_remove s m = ({ s with heap := herase (hsetNext s.heap q none) m, lst := { s.lst with tail := some q, len := s.lst.len - 1 }, freed := s.freed ++ (if s.lst.free then [valAt s.heap m] else []) }, 0) := by
        cases hf : s.lst.free with
        | true => simp [list_remove, hm, hmprev', hmnext', hf, hval]
        | false => simp [list_remove, hm, hmprev', hmnext', hf]
      have hg_q : hget (herase (hsetNext s.heap q none) m) q = some { qn with next := none } := by
        rw [hget_herase]
        simp only [hm_ne_q, if_false]
        exact hget_hsetNext_self _ _ _ _ hqn
      have hframe : ∀ j ∈ l0,
          hget (herase (hsetNext s.heap q none) m) j = hget s.heap j := by
        intro j hj
        have hj_ne_m : m ≠ j := fun he => hm_notin_l (he ▸ List.mem_append_left _ hj)
        have hj_ne_q : q ≠ j := fun he => hq_notin_l0 (he ▸ hj)
        rw [hget_herase]
        simp only [hj_ne_m, if_false]
        exact hget_hsetNext_ne _ _ _ _ hj_ne_q
      rw [hkey]
      refine ⟨rfl, ⟨?_, ?_, ?_, ?_, ?_, ?_⟩, rfl, rfl, rfl, rfl, rfl, ?_⟩
      · show segOk _ none (l0 ++ [q] ++ []) none = true
        rw [List.append_nil, segOk_append]
        simp only [Bool.and_eq_true]
        constructor
        · show segOk _ none l0 (headCtx [q] none) = true
          have h0 : headCtx [q] none = some q := rfl
          rw [h0, segOk_congr _ _ _ hframe]
          exact hsegL0
        · rw [segOk_singleton]
          exact ⟨_, hg_q, hqnprev, rfl⟩
      · show s.lst.head = (l0 ++ [q] ++ []).head?
        rw [List.append_nil, hhead, head?_append_left _ _ (by simp)]
      · show some q = (l0 ++ [q] ++ []).getLast?
        simp
      · show s.lst.len - 1 = (l0 ++ [q] ++ []).length
        rw [hlen]
        simp
      · simpa using hnodup'
      · intro i hi
        rw [List.append_nil] at hi
        exact hbound i (List.mem_append_left _ hi)
      · intro j hj
        rw [valAt_herase_ne _ _ _ (fun he => hj he.symm), valAt_hsetNext]
    | cons b r' =>
      have hmnext' : mn.next = some b := hmnext
      rw [segOk_cons] at hrest
      obtain ⟨bn, hbn, hbnprev, hbnnext, hrest'⟩ := hrest
      have hm_ne_b : m ≠ b := fun he => hm_notin_r (he ▸ List.mem_cons_self _ _)
      have hb_notin_r' : b ∉ r' :=
        (List.nodup_cons.mp (List.nodup_cons.mp (List.nodup_append.mp hnodup).2.1).2).1
      have hq_ne_b : q ≠ b := fun he =>
        hdisj q (by simp) (he ▸ List.mem_cons_self _ _)
      have hkey : list_remove s m = ({ s with heap := herase (hsetPrev (hsetNext s.heap q (some b)) b (some q)) m, lst := { s.lst with len := s.lst.len - 1 }, freed := s.freed ++ (if s.lst.free then [valAt s.heap m] else []) }, 0) := by
        cases hf : s.lst.free with
        | true => simp [list_remove, hm, hmprev', hmnext', hf, hval]
        | false => simp [list_remove, hm, hmprev', hmnext', hf]
      have hg_q : hget (herase (hsetPrev (hsetNext s.heap q (some b)) b (some q)) m) q =
          some { qn with next := some b } := by
        rw [hget_herase]
        simp only [hm_ne_q, if_false]
        rw [hget_hsetPrev_ne _ _ _ _ (fun he => hq_ne_b he.symm)]
        exact hget_hsetNext_self _ _ _ _ hqn
      have hg_b : hget (herase (hsetPrev (hsetNext s.heap q (some b)) b (some q)) m) b =
          some { bn with prev := some q } := by
        rw [hget_herase]
        simp only [hm_ne_b, if_false]
        have h0 : hget (hsetNext s.heap q (some b)) b = some bn := by
          rw [hget_hsetNext_ne _ _ _ _ hq_ne_b]
          exact hbn
        exact hget_hsetPrev_self _ _ _ _ h0
      have hframe : ∀ j, j ≠ m → j ≠ q → j ≠ b →
          hget (herase (hsetPrev (hsetNext s.heap q (some b)) b (some q)) m) j =
            hget s.heap j := by
        intro j hjm hjq hjb
        have hmj : m ≠ j := fun he => hjm he.symm
        rw [hget_herase]
        simp only [hmj, if_false]
        rw [hget_hsetPrev_ne _ _ _ _ (fun he => hjb he.symm),
          hget_hsetNext_ne _ _ _ _ (fun he => hjq he.symm)]
      have hframe_l0 : ∀ j ∈ l0,
          hget (herase (hsetPrev (hsetNext s.heap q (some b)) b (some q)) m) j =
            hget s.heap j := by
        intro j hj
        refine hframe j ?_ ?_ ?_
        · exact fun he => hm_notin_l (he ▸ List.mem_append_left _ hj)
        · exact fun he => hq_notin_l0 (he ▸ hj)
        · exact fun he => hdisj j (List.mem_append_left _ hj) (he ▸ List.mem_cons_self _ _)
      have hframe_r' : ∀ j ∈ r',
          hget (herase (hsetPrev (hsetNext s.heap q (some b)) b (some q)) m) j =
            hget s.heap j := by
        intro j hj
        refine hframe j ?_ ?_ ?_
        · exact fun he => hm_notin_r (he ▸ List.mem_cons_of_mem _ hj)
        · exact fun he => hdisj q (by simp) (he ▸ List.mem_cons_of_mem _ hj)
        · exact fun he => hb_notin_r' (he ▸ hj)
      rw [hkey]
      refine ⟨rfl, ⟨?_, ?_, ?_, ?_, ?_, ?_⟩, rfl, rfl, rfl, rfl, rfl, ?_⟩
      · show segOk _ none ((l0 ++ [q]) ++ b :: r') none = true
        rw [segOk_append]
        simp only [Bool.and_eq_true]
        constructor
        · show segOk _ none (l0 ++ [q]) (headCtx (b :: r') none) = true
          rw [segOk_append]
          simp only [Bool.and_eq_true]
          constructor
          · show segOk _ none l0 (headCtx [q] (headCtx (b :: r') none)) = true
            have h0 : headCtx [q] (headCtx (b :: r') none) = some q := rfl
            rw [h0, segOk_congr _ _ _ hframe_l0]
            exact hsegL0
          · show segOk _ (lastCtx none l0) [q] (headCtx (b :: r') none) = true
            rw [segOk_singleton]
            exact ⟨_, hg_q, hqnprev, rfl⟩
        · show segOk _ (lastCtx none (l0 ++ [q])) (b :: r') none = true
          have h0 : lastCtx none (l0 ++ [q]) = some q := by
            rw [lastCtx_none]; simp
          rw [h0, segOk_cons]
          refine ⟨_, hg_b, rfl, hbnnext, ?_⟩
          rw [segOk_congr _ _ _ hframe_r']
          exact hrest'
      · show s.lst.head = ((l0 ++ [q]) ++ b :: r').head?
        rw [hhead, head?_append_left (l0 ++ [q]) (m :: b :: r') (by simp),
          head?_append_left (l0 ++ [q]) (b :: r') (by simp)]
      · show s.lst.tail = ((l0 ++ [q]) ++ b :: r').getLast?
        rw [htail, List.getLast?_append_cons, List.getLast?_append_cons]
        rw [getLast?_cons_of_ne_nil _ _ (by simp)]
      · show s.lst.len - 1 = ((l0 ++ [q]) ++ b :: r').length
        rw [hlen]
        simp
      · exact hnodup'
      · intro i hi
        rcases List.mem_append.mp hi with hi | hi
        · exact hbound i (List.mem_append_left _ hi)
        · exact hbound i (List.mem_append_right _ (List.mem_cons_of_mem _ hi))
      · intro j hj
        rw [valAt_herase_ne _ _ _ (fun he => hj he.symm), valAt_hsetPrev, valAt_hsetNext]

theorem pushDispatch_rep (s : State) (nid : Nat) (nd : list_node_t)
    (l : List Nat) (b : Nat) (r : List Nat)
    (hrep : ListRep s (l ++ b :: r)) (hn : hget s.heap nid = some nd)
    (hmem : nid ∉ l ++ b :: r) (hbnd : nid < s.nextId) :
    (pushDispatch s nid (some b)).2 = some nid ∧
    ListRep (pushDispatch s nid (some b)).1 (l ++ nid :: b :: r) ∧
    (pushDispatch s nid (some b)).1.freed = s.freed ∧
    (pushDispatch s nid (some b)).1.nextId = s.nextId ∧
    (pushDispatch s nid (some b)).1.lst.free = s.lst.free ∧
    (pushDispatch s nid (some b)).1.lst.compare = s.lst.compare ∧
    (pushDispatch s nid (some b)).1.lst.matchCb = s.lst.matchCb ∧
    ∀ j, valAt (pushDispatch s nid (some b)).1.heap j = valAt s.heap j := by
  have hrep' := hrep
  obtain ⟨hseg, hhead, htail, hlen, hnodup, hbound⟩ := hrep'
  rw [segOk_append] at hseg
  simp only [Bool.and_eq_true] at hseg
  obtain ⟨hsegL, hsegR⟩ := hseg
  rw [segOk_cons] at hsegR
  obtain ⟨bn, hbn, hbnprev, hbnnext, hrest⟩ := hsegR
  have hnid_ne_b : nid ≠ b := fun he => hmem (he ▸ List.mem_append_right _ (List.mem_cons_self _ _))
  rcases List.eq_nil_or_concat l with rfl | ⟨l0, q, rfl⟩
  · have hbnprev' : bn.prev = none := by rw [hbnprev]; rfl
    have hres : pushDispatch s nid (some b) = ((list_lpush s nid).1, some (list_lpush s nid).2) := by
      simp [pushDispatch, hbn, hbnprev']
    obtain ⟨hr2, hrepL, hfr, hni, hff, hfc, hfm, hva⟩ :=
      list_lpush_rep s (b :: r) nid nd hrep hn hmem hbnd
    rw [hres]
    exact ⟨by rw [hr2], hrepL, hfr, hni, hff, hfc, hfm, hva⟩
  · simp only [List.concat_eq_append] at hbnprev hrep hsegL hhead htail hlen hnodup hbound hmem ⊢
    have hbnprev' : bn.prev = some q := by
      rw [hbnprev, lastCtx_append_cons]
      rfl
    have hres : pushDispatch s nid (some b) = ({ s with heap := hsetPrev (hsetNext (hsetPrev (hsetNext s.heap nid (some b)) nid (some q)) q (some nid)) b (some nid), lst := { s.lst with len := s.lst.len + 1 } }, some nid) := by
      simp [pushDispatch, hbn, hbnprev']
    rw [segOk_append] at hsegL
    simp only [Bool.and_eq_true] at hsegL
    obtain ⟨hsegL0, hsegLq⟩ := hsegL
    rw [segOk_singleton] at hsegLq
    obtain ⟨qn, hqn, hqnprev, hqnnext⟩ := hsegLq
    have hqnnext' : qn.next = some b := hqnnext
    have hnid_ne_q : nid ≠ q := fun he => hmem (he ▸ List.mem_append_left _ (by simp))
    have hq_notin_l0 : q ∉ l0 := by
      have hnd := (List.nodup_append.mp hnodup).1
      rw [List.nodup_append] at hnd
      exact fun hqi => hnd.2.2 hqi (by simp)
    have hdisj : ∀ a ∈ l0 ++ [q], a ∉ b :: r := by
      intro a hal har
      exact (List.nodup_append.mp hnodup).2.2 hal har
    have hq_ne_b : q ≠ b := fun he => hdisj q (by simp) (he ▸ List.mem_cons_self _ _)
    have hb_notin_r : b ∉ r := (List.nodup_cons.mp (List.nodup_append.mp hnodup).2.1).1
    have hg_nid : hget (hsetPrev (hsetNext (hsetPrev (hsetNext s.heap nid (some b)) nid (some q)) q (some nid)) b (some nid)) nid = some { prev := some q, next := some b, val := nd.val } := by
      rw [hget_hsetPrev_ne _ _ _ _ (fun he => hnid_ne_b he.symm),
        hget_hsetNext_ne _ _ _ _ (fun he => hnid_ne_q he.symm)]
      exact hget_hsetPrev_self _ _ _ _ (hget_hsetNext_self _ _ _ _ hn)
    have hg_q : hget (hsetPrev (hsetNext (hsetPrev (hsetNext s.heap nid (some b)) nid (some q)) q (some nid)) b (some nid)) q = some { qn with next := some nid } := by
      rw [hget_hsetPrev_ne _ _ _ _ (fun he => hq_ne_b he.symm)]
      refine hget_hsetNext_self _ _ _ _ ?_
      rw [hget_hsetPrev_ne _ _ _ _ hnid_ne_q, hget_hsetNext_ne _ _ _ _ hnid_ne_q]
      exact hqn
    have hg_b : hget (hsetPrev (hsetNext (hsetPrev (hsetNext s.heap nid (some b)) nid (some q)) q (some nid)) b (some nid)) b = some { bn with prev := some nid } := by
      refine hget_hsetPrev_self _ _ _ _ ?_
      rw [hget_hsetNext_ne _ _ _ _ hq_ne_b, hget_hsetPrev_ne _ _ _ _ hnid_ne_b,
        hget_hsetNext_ne _ _ _ _ hnid_ne_b]
      exact hbn
    have hframe : ∀ j, j ≠ nid → j ≠ q → j ≠ b →
        hget (hsetPrev (hsetNext (hsetPrev (hsetNext s.heap nid (some b)) nid (some q)) q (some nid)) b (some nid)) j = hget s.heap j := by
      intro j hjn hjq hjb
      rw [hget_hsetPrev_ne _ _ _ _ (fun he => hjb he.symm),
        hget_hsetNext_ne _ _ _ _ (fun he => hjq he.symm),
        hget_hsetPrev_ne _ _ _ _ (fun he => hjn he.symm),
        hget_hsetNext_ne _ _ _ _ (fun he => hjn he.symm)]
    have hframe_l0 : ∀ j ∈ l0,
        hget (hsetPrev (hsetNext (hsetPrev (hsetNext s.heap nid (some b)) nid (some q)) q (some nid)) b (some nid)) j = hget s.heap j := by
      intro j hj
      refine hframe j ?_ ?_ ?_
      · exact fun he => hmem (he ▸ List.mem_append_left _ (List.mem_append_left _ hj))
      · exact fun he => hq_notin_l0 (he ▸ hj)
      · exact fun he => hdisj j (List.mem_append_left _ hj) (he ▸ List.mem_cons_self _ _)
    have hframe_r : ∀ j ∈ r,
        hget (hsetPrev (hsetNext (hsetPrev (hsetNext s.heap nid (some b)) nid (some q)) q (some nid)) b (some nid)) j = hget s.heap j := by
      intro j hj
      refine hframe j ?_ ?_ ?_
      · exact fun he => hmem (he ▸ List.mem_append_right _ (List.mem_cons_of_mem _ hj))
      · exact fun he => hdisj q (by simp) (he ▸ List.mem_cons_of_mem _ hj)
      · exact fun he => hb_notin_r (he ▸ hj)
    rw [hres]
    refine ⟨rfl, ⟨?_, ?_, ?_, ?_, ?_, ?_⟩, rfl, rfl, rfl, rfl, rfl, ?_⟩
    · show segOk _ none ((l0 ++ [q]) ++ nid :: b :: r) none = true
      rw [segOk_append]
      simp only [Bool.and_eq_true]
      constructor
      · show segOk _ none (l0 ++ [q]) (headCtx (nid :: b :: r) none) = true
        rw [segOk_append]
        simp only [Bool.and_eq_true]
        constructor
        · show segOk _ none l0 (headCtx [q] (headCtx (nid :: b :: r) none)) = true
          have h0 : headCtx [q] (headCtx (nid :: b :: r) none) = some q := rfl
          rw [h0, segOk_congr _ _ _ hframe_l0]
          exact hsegL0
        · show segOk _ (lastCtx none l0) [q] (headCtx (nid :: b :: r) none) = true
          rw [segOk_singleton]
          exact ⟨_, hg_q, hqnprev, rfl⟩
      · show segOk _ (lastCtx none (l0 ++ [q])) (nid :: b :: r) none = true
        have h0 : lastCtx none (l0 ++ [q]) = some q := by
          rw [lastCtx_none]; simp
        rw [h0, segOk_cons]
        refine ⟨_, hg_nid, rfl, rfl, ?_⟩
        rw [segOk_cons]
        refine ⟨_, hg_b, rfl, hbnnext, ?_⟩
        rw [segOk_congr _ _ _ hframe_r]
        exact hrest
    · show s.lst.head = ((l0 ++ [q]) ++ nid :: b :: r).head?
      rw [hhead, head?_append_left (l0 ++ [q]) (b :: r) (by simp),
        head?_append_left (l0 ++ [q]) (nid :: b :: r) (by simp)]
    · show s.lst.tail = ((l0 ++ [q]) ++ nid :: b :: r).getLast?
      rw [htail, List.getLast?_append_cons, List.getLast?_append_cons,
        getLast?_cons_of_ne_nil nid (b :: r) (by simp)]
    · show s.lst.len + 1 = ((l0 ++ [q]) ++ nid :: b :: r).length
      rw [hlen]
      simp
      omega
    · rw [List.nodup_append]
      refine ⟨(List.nodup_append.mp hnodup).1, ?_, ?_⟩
      · rw [List.nodup_cons]
        refine ⟨fun he => hmem (List.mem_append_right _ he), (List.nodup_append.mp hnodup).2.1⟩
      · intro a hal har
        rcases List.mem_cons.mp har with rfl | har
        · exact hmem (List.mem_append_left _ hal)
        · exact hdisj a hal har
    · intro i hi
      rcases List.mem_append.mp hi with hi | hi
      · exact hbound i (List.mem_append_left _ hi)
      · rcases List.mem_cons.mp hi with rfl | hi
        · exact hbnd
        · exact hbound i (List.mem_append_right _ hi)
    · intro j
      rw [valAt_hsetPrev, valAt_hsetNext, valAt_hsetPrev, valAt_hsetNext]

theorem scan_eq_find (s : State) (ids : List Nat) (brk : list_node_t → Bool)
    (hrep : ListRep s ids) :
    scanLoop s.heap brk (s.lst.len + 1) (list_iterator_new s.lst LIST_HEAD) =
      ids.find? (brkAt s.heap brk) := by
  obtain ⟨hseg, hhead, _, hlen, _, _⟩ := hrep
  have h0 : list_iterator_new s.lst LIST_HEAD = ⟨ids.head?, LIST_HEAD⟩ := by
    unfold list_iterator_new list_iterator_new_from_node
    simp [hhead]
  rw [h0, hlen]
  exact scanLoop_spec s.heap brk ids none (ids.length + 1) hseg (Nat.le_succ _)

theorem pushFind_rep (s : State) (ids : List Nat) (nid : Nat) (nd : list_node_t)
    (brk : list_node_t → Bool)
    (hrep : ListRep s ids) (hn : hget s.heap nid = some nd) (hmem : nid ∉ ids)
    (hbnd : nid < s.nextId) :
    ∃ l r, ids = l ++ r ∧
      (∀ i ∈ l, brkAt s.heap brk i = false) ∧
      (∀ b, r.head? = some b → brkAt s.heap brk b = true) ∧
      (pushDispatch s nid (ids.find? (brkAt s.heap brk))).2 = some nid ∧
      ListRep (pushDispatch s nid (ids.find? (brkAt s.heap brk))).1 (l ++ nid :: r) ∧
      (pushDispatch s nid (ids.find? (brkAt s.heap brk))).1.freed = s.freed ∧
      (pushDispatch s nid (ids.find? (brkAt s.heap brk))).1.nextId = s.nextId ∧
      (pushDispatch s nid (ids.find? (brkAt s.heap brk))).1.lst.free = s.lst.free ∧
      (pushDispatch s nid (ids.find? (brkAt s.heap brk))).1.lst.compare = s.lst.compare ∧
      (pushDispatch s nid (ids.find? (brkAt s.heap brk))).1.lst.matchCb = s.lst.matchCb ∧
      ∀ j, valAt (pushDispatch s nid (ids.find? (brkAt s.heap brk))).1.heap j = valAt s.heap j := by
  cases hfind : ids.find? (brkAt s.heap brk) with
  | none =>
    have hres : pushDispatch s nid none = ((list_rpush s nid).1, some (list_rpush s nid).2) := rfl
    obtain ⟨h2, hrepR, hfr, hni, hff, hfc, hfm, hva⟩ :=
      list_rpush_rep s ids nid nd hrep hn hmem hbnd
    refine ⟨ids, [], by simp, ?_, ?_, ?_, ?_, hfr, hni, hff, hfc, hfm, hva⟩
    · intro i hi
      have h3 := List.find?_eq_none.mp hfind i hi
      simpa using h3
    · intro b hbh
      cases hbh
    · rw [hres, h2]
    · rw [hres]
      simpa using hrepR
  | some b =>
    obtain ⟨l, rr, hids, hall, hbtrue⟩ := find?_some_split _ ids b hfind
    subst hids
    obtain ⟨h2, hrepR, hfr, hni, hff, hfc, hfm, hva⟩ :=
      pushDispatch_rep s nid nd l b rr hrep hn hmem hbnd
    refine ⟨l, b :: rr, rfl, hall, ?_, h2, hrepR, hfr, hni, hff, hfc, hfm, hva⟩
    intro b' hb'
    cases Option.some.inj hb'
    exact hbtrue

theorem list_push_asc_rep (s : State) (ids : List Nat) (nid : Nat) (nd : list_node_t)
    (hrep : ListRep s ids) (hn : hget s.heap nid = some nd) (hmem : nid ∉ ids)
    (hbnd : nid < s.nextId) :
    ∃ l r, ids = l ++ r ∧
      (∀ i ∈ l, brkAt s.heap (ascBrk s nd.val) i = false) ∧
      (∀ b, r.head? = some b → brkAt s.heap (ascBrk s nd.val) b = true) ∧
      (list_push_asc s nid).2 = some nid ∧
      ListRep (list_push_asc s nid).1 (l ++ nid :: r) ∧
      (list_push_asc s nid).1.freed = s.freed ∧
      (list_push_asc s nid).1.nextId = s.nextId ∧
      (list_push_asc s nid).1.lst.free = s.lst.free ∧
      (list_push_asc s nid).1.lst.compare = s.lst.compare ∧
      (list_push_asc s nid).1.lst.matchCb = s.lst.matchCb ∧
      ∀ j, valAt (list_push_asc s nid).1.heap j = valAt s.heap j := by
  by_cases hlen0 : s.lst.len = 0
  · have hids : ids = [] := by
      obtain ⟨_, _, _, hlen, _, _⟩ := hrep
      exact List.eq_nil_of_length_eq_zero (hlen ▸ hlen0)
    subst hids
    have hres : list_push_asc s nid = ((list_rpush s nid).1, some (list_rpush s nid).2) := by
      simp [list_push_asc, hlen0]
    obtain ⟨h2, hrepR, hfr, hni, hff, hfc, hfm, hva⟩ :=
      list_rpush_rep s [] nid nd hrep hn hmem hbnd
    rw [hres]
    refine ⟨[], [], rfl, ?_, ?_, by rw [h2], by simpa using hrepR, hfr, hni, hff, hfc, hfm, hva⟩
    · intro i hi
      cases hi
    · intro b hbh
      cases hbh
  · have hval : valAt s.heap nid = nd.val := by unfold valAt; rw [hn]
    have hres : list_push_asc s nid =
        pushDispatch s nid (ids.find? (brkAt s.heap (ascBrk s nd.val))) := by
      unfold list_push_asc
      rw [if_neg hlen0, hval, scan_eq_find s ids _ hrep]
    rw [hres]
    exact pushFind_rep s ids nid nd (ascBrk s nd.val) hrep hn hmem hbnd

theorem list_push_desc_rep (s : State) (ids : List Nat) (nid : Nat) (nd : list_node_t)
    (hrep : ListRep s ids) (hn : hget s.heap nid = some nd) (hmem : nid ∉ ids)
    (hbnd : nid < s.nextId) :
    ∃ l r, ids = l ++ r ∧
      (∀ i ∈ l, brkAt s.heap (descBrk s nd.val) i = false) ∧
      (∀ b, r.head? = some b → brkAt s.heap (descBrk s nd.val) b = true) ∧
      (list_push_desc s nid).2 = some nid ∧
      ListRep (list_push_desc s nid).1 (l ++ nid :: r) ∧
      (list_push_desc s nid).1.freed = s.freed ∧
      (list_push_desc s nid).1.nextId = s.nextId ∧
      (list_push_desc s nid).1.lst.free = s.lst.free ∧
      (list_push_desc s nid).1.lst.compare = s.lst.compare ∧
      (list_push_desc s nid).1.lst.matchCb = s.lst.matchCb ∧
      ∀ j, valAt (list_push_desc s nid).1.heap j = valAt s.heap j := by
  by_cases hlen0 : s.lst.len = 0
  · have hids : ids = [] := by
      obtain ⟨_, _, _, hlen, _, _⟩ := hrep
      exact List.eq_nil_of_length_eq_zero (hlen ▸ hlen0)
    subst hids
    have hres : list_push_desc s nid = ((list_rpush s nid).1, some (list_rpush s nid).2) := by
      simp [list_push_desc, hlen0]
    obtain ⟨h2, hrepR, hfr, hni, hff, hfc, hfm, hva⟩ :=
      list_rpush_rep s [] nid nd hrep hn hmem hbnd
    rw [hres]
    refine ⟨[], [], rfl, ?_, ?_, by rw [h2], by simpa using hrepR, hfr, hni, hff, hfc, hfm, hva⟩
    · intro i hi
      cases hi
    · intro b hbh
      cases hbh
  · have hval : valAt s.heap nid = nd.val := by unfold valAt; rw [hn]
    have hres : list_push_desc s nid =
        pushDispatch s nid (ids.find? (brkAt s.heap (descBrk s nd.val))) := by
      unfold list_push_desc
      rw [if_neg hlen0, hval, scan_eq_find s ids _ hrep]
    rw [hres]
    exact pushFind_rep s ids nid nd (descBrk s nd.val) hrep hn hmem hbnd

theorem list_at_spec (s : State) (ids : List Nat) (hrep : ListRep s ids) (index : Int) :
    list_at s index =
      (if index < 0 then ids.reverse[(-index - 1).toNat]? else ids[index.toNat]?) := by
  obtain ⟨hseg, hhead, htail, hlen, _, _⟩ := hrep
  by_cases hneg : index < 0
  · rw [if_pos hneg]
    have hredef : list_at s index = (if (-index - 1).toNat < s.lst.len then atLoop s.heap (-index - 1).toNat (list_iterator_new s.lst LIST_TAIL) else none) := by
      simp [list_at, hneg]
    rw [hredef]
    by_cases hrange : (-index - 1).toNat < s.lst.len
    · rw [if_pos hrange]
      have h0 : list_iterator_new s.lst LIST_TAIL = ⟨ids.getLast?, LIST_TAIL⟩ := by
        unfold list_iterator_new list_iterator_new_from_node
        simp [htail]
      rw [h0]
      exact atLoop_tail s.heap ids none hseg _
    · rw [if_neg hrange]
      have hout : ids.reverse.length ≤ (-index - 1).toNat := by
        rw [List.length_reverse, ← hlen]
        omega
      rw [List.getElem?_eq_none hout]
  · rw [if_neg hneg]
    have hredef : list_at s index = (if index.toNat < s.lst.len then atLoop s.heap index.toNat (list_iterator_new s.lst LIST_HEAD) else none) := by
      simp [list_at, hneg]
    rw [hredef]
    by_cases hrange : index.toNat < s.lst.len
    · rw [if_pos hrange]
      have h0 : list_iterator_new s.lst LIST_HEAD = ⟨ids.head?, LIST_HEAD⟩ := by
        unfold list_iterator_new list_iterator_new_from_node
        simp [hhead]
      rw [h0]
      exact atLoop_head s.heap ids none hseg _
    · rw [if_neg hrange]
      have hout : ids.length ≤ index.toNat := by omega
      rw [List.getElem?_eq_none hout]

theorem applyOp_rep (s : State) (ids : List Nat) (op : Op) (hrep : ListRep s ids) :
    ∃ ids', ListRep (applyOp s op) ids' := by
  cases op with
  | rpush v =>
    by_cases hv : v = 0
    · subst hv
      have happ : applyOp s (Op.rpush 0) = s := by
        show (match list_node_new s 0 with
              | (s1, some nid) => (list_rpush s1 nid).1
              | (s1, none) => s1) = s
        rw [list_node_new_zero]
      exact ⟨ids, happ ▸ hrep⟩
    · obtain ⟨h2, hrep1, hget1, hnotin, hlt, _, _, _⟩ := list_node_new_rep s ids v hrep hv
      have he : list_node_new s v = ((list_node_new s v).1, some s.nextId) := by
        rw [← h2]
      have happ : applyOp s (Op.rpush v) = (list_rpush (list_node_new s v).1 s.nextId).1 := by
        show (match list_node_new s v with
              | (s1, some nid) => (list_rpush s1 nid).1
              | (s1, none) => s1) = _
        rw [he]
      obtain ⟨_, hrep2, _⟩ :=
        list_rpush_rep (list_node_new s v).1 ids s.nextId ⟨none, none, v⟩ hrep1 hget1 hnotin hlt
      exact ⟨ids ++ [s.nextId], happ ▸ hrep2⟩
  | lpush v =>
    by_cases hv : v = 0
    · subst hv
      have happ : applyOp s (Op.lpush 0) = s := by
        show (match list_node_new s 0 with
              | (s1, some nid) => (list_lpush s1 nid).1
              | (s1, none) => s1) = s
        rw [list_node_new_zero]
      exact ⟨ids, happ ▸ hrep⟩
    · obtain ⟨h2, hrep1, hget1, hnotin, hlt, _, _, _⟩ := list_node_new_rep s ids v hrep hv
      have he : list_node_new s v = ((list_node_new s v).1, some s.nextId) := by
        rw [← h2]
      have happ : applyOp s (Op.lpush v) = (list_lpush (list_node_new s v).1 s.nextId).1 := by
        show (match list_node_new s v with
              | (s1, some nid) => (list_lpush s1 nid).1
              | (s1, none) => s1) = _
        rw [he]
      obtain ⟨_, hrep2, _⟩ :=
        list_lpush_rep (list_node_new s v).1 ids s.nextId ⟨none, none, v⟩ hrep1 hget1 hnotin hlt
      exact ⟨s.nextId :: ids, happ ▸ hrep2⟩
  | rpop =>
    rcases List.eq_nil_or_concat ids with rfl | ⟨init, t, rfl⟩
    · have hlen0 : s.lst.len = 0 := by
        obtain ⟨_, _, _, hlen, _, _⟩ := hrep
        simpa using hlen
      have happ : applyOp s Op.rpop = s := by
        show (list_rpop s).1 = s
        rw [list_rpop_empty s hlen0]
      exact ⟨[], happ.symm ▸ hrep⟩
    · simp only [List.concat_eq_append] at hrep
      obtain ⟨_, hrep2, _⟩ := list_rpop_rep s init t hrep
      exact ⟨init, hrep2⟩
  | lpop =>
    cases ids with
    | nil =>
      have hlen0 : s.lst.len = 0 := by
        obtain ⟨_, _, _, hlen, _, _⟩ := hrep
        simpa using hlen
      have happ : applyOp s Op.lpop = s := by
        show (list_lpop s).1 = s
        rw [list_lpop_empty s hlen0]
      exact ⟨[], happ.symm ▸ hrep⟩
    | cons hd rest =>
      obtain ⟨_, hrep2, _⟩ := list_lpop_rep s hd rest hrep
      exact ⟨rest, hrep2⟩
  | remove i =>
    cases hat : list_at s (Int.ofNat i) with
    | none =>
      have happ : applyOp s (Op.remove i) = s := by
        show (match list_at s (Int.ofNat i) with
              | some nid => (list_remove s nid).1
              | none => s) = s
        rw [hat]
      exact ⟨ids, happ.symm ▸ hrep⟩
    | some nid =>
      have happ : applyOp s (Op.remove i) = (list_remove s nid).1 := by
        show (match list_at s (Int.ofNat i) with
              | some nid => (list_remove s nid).1
              | none => s) = _
        rw [hat]
      have hmem : nid ∈ ids := by
        rw [list_at_spec s ids hrep (Int.ofNat i)] at hat
        have hpos : ¬ ((Int.ofNat i) < 0) := not_lt.mpr (Int.natCast_nonneg i)
        rw [if_neg hpos] at hat
        exact List.getElem?_mem hat
      obtain ⟨l, r, hids⟩ := List.append_of_mem hmem
      subst hids
      obtain ⟨_, hrep2, _⟩ := list_remove_rep s l nid r hrep
      exact ⟨l ++ r, happ ▸ hrep2⟩
  | pushAsc v =>
    by_cases hv : v = 0
    · subst hv
      have happ : applyOp s (Op.pushAsc 0) = s := by
        show (match list_node_new s 0 with
              | (s1, some nid) => (list_push_asc s1 nid).1
              | (s1, none) => s1) = s
        rw [list_node_new_zero]
      exact ⟨ids, happ ▸ hrep⟩
    · obtain ⟨h2, hrep1, hget1, hnotin, hlt, _, _, _⟩ := list_node_new_rep s ids v hrep hv
      have he : list_node_new s v = ((list_node_new s v).1, some s.nextId) := by
        rw [← h2]
      have happ : applyOp s (Op.pushAsc v) = (list_push_asc (list_node_new s v).1 s.nextId).1 := by
        show (match list_node_new s v with
              | (s1, some nid) => (list_push_asc s1 nid).1
              | (s1, none) => s1) = _
        rw [he]
      obtain ⟨l, r, _, _, _, _, hrep2, _⟩ :=
        list_push_asc_rep (list_node_new s v).1 ids s.nextId ⟨none, none, v⟩ hrep1 hget1 hnotin hlt
      exact ⟨l ++ s.nextId :: r, happ ▸ hrep2⟩
  | pushDesc v =>
    by_cases hv : v = 0
    · subst hv
      have happ : applyOp s (Op.pushDesc 0) = s := by
        show (match list_node_new s 0 with
              | (s1, some nid) => (list_push_desc s1 nid).1
              | (s1, none) => s1) = s
        rw [list_node_new_zero]
      exact ⟨ids, happ ▸ hrep⟩
    · obtain ⟨h2, hrep1, hget1, hnotin, hlt, _, _, _⟩ := list_node_new_rep s ids v hrep hv
      have he : list_node_new s v = ((list_node_new s v).1, some s.nextId) := by
        rw [← h2]
      have happ : applyOp s (Op.pushDesc v) = (list_push_desc (list_node_new s v).1 s.nextId).1 := by
        show (match list_node_new s v with
              | (s1, some nid) => (list_push_desc s1 nid).1
              | (s1, none) => s1) = _
        rw [he]
      obtain ⟨l, r, _, _, _, _, hrep2, _⟩ :=
        list_push_desc_rep (list_node_new s v).1 ids s.nextId ⟨none, none, v⟩ hrep1 hget1 hnotin hlt
      exact ⟨l ++ s.nextId :: r, happ ▸ hrep2⟩

theorem foldl_rep (ops : List Op) :
    ∀ (s : State) (ids : List Nat), ListRep s ids →
      ∃ ids', ListRep (ops.foldl applyOp s) ids' := by
  induction ops with
  | nil => intro s ids h; exact ⟨ids, h⟩
  | cons op ops ih =>
    intro s ids h
    obtain ⟨ids1, h1⟩ := applyOp_rep s ids op h
    exact ih (applyOp s op) ids1 h1

theorem runOps_rep (ops : List Op) : ∃ ids, ListRep (runOps ops) ids :=
  foldl_rep ops emptyState [] emptyState_rep

theorem sortedLe_cons (a : Nat) (xs : List Nat) :
    sortedLe (a :: xs) = true ↔ ((∀ y, xs.head? = some y → a ≤ y) ∧ sortedLe xs = true) := by
  cases xs with
  | nil => simp [sortedLe]
  | cons b ys =>
    show (decide (a ≤ b) && sortedLe (b :: ys)) = true ↔ _
    simp only [Bool.and_eq_true, decide_eq_true_iff]
    constructor
    · rintro ⟨h1, h2⟩
      exact ⟨fun y hy => by cases Option.some.inj hy; exact h1, h2⟩
    · rintro ⟨h1, h2⟩
      exact ⟨h1 b rfl, h2⟩

theorem sortedGe_cons (a : Nat) (xs : List Nat) :
    sortedGe (a :: xs) = true ↔ ((∀ y, xs.head? = some y → y ≤ a) ∧ sortedGe xs = true) := by
  cases xs with
  | nil => simp [sortedGe]
  | cons b ys =>
    show (decide (b ≤ a) && sortedGe (b :: ys)) = true ↔ _
    simp only [Bool.and_eq_true, decide_eq_true_iff]
    constructor
    · rintro ⟨h1, h2⟩
      exact ⟨fun y hy => by cases Option.some.inj hy; exact h1, h2⟩
    · rintro ⟨h1, h2⟩
      exact ⟨h1 b rfl, h2⟩

theorem sortedLe_suffix (xs ys : List Nat) (h : sortedLe (xs ++ ys) = true) :
    sortedLe ys = true := by
  induction xs with
  | nil => exact h
  | cons a xs ih =>
    rw [List.cons_append, sortedLe_cons] at h
    exact ih h.2

theorem sortedGe_suffix (xs ys : List Nat) (h : sortedGe (xs ++ ys) = true) :
    sortedGe ys = true := by
  induction xs with
  | nil => exact h
  | cons a xs ih =>
    rw [List.cons_append, sortedGe_cons] at h
    exact ih h.2

theorem sortedLe_head_le (a : Nat) (xs : List Nat) (h : sortedLe (a :: xs) = true) :
    ∀ y ∈ xs, a ≤ y := by
  induction xs generalizing a with
  | nil => intro y hy; cases hy
  | cons b ys ih =>
    rw [sortedLe_cons] at h
    obtain ⟨h1, h2⟩ := h
    intro y hy
    rcases List.mem_cons.mp hy with rfl | hy
    · exact h1 y rfl
    · exact le_trans (h1 b rfl) (ih b h2 y hy)

theorem sortedGe_head_ge (a : Nat) (xs : List Nat) (h : sortedGe (a :: xs) = true) :
    ∀ y ∈ xs, y ≤ a := by
  induction xs generalizing a with
  | nil => intro y hy; cases hy
  | cons b ys ih =>
    rw [sortedGe_cons] at h
    obtain ⟨h1, h2⟩ := h
    intro y hy
    rcases List.mem_cons.mp hy with rfl | hy
    · exact h1 y rfl
    · exact le_trans (ih b h2 y hy) (h1 b rfl)

theorem sortedLe_insert (v : Nat) (xs ys : List Nat) (h : sortedLe (xs ++ ys) = true)
    (hxs : ∀ x ∈ xs, x ≤ v) (hys : ∀ y, ys.head? = some y → v < y) :
    sortedLe (xs ++ v :: ys) = true := by
  induction xs with
  | nil =>
    rw [List.nil_append, sortedLe_cons]
    refine ⟨fun y hy => le_of_lt (hys y hy), h⟩
  | cons a xs ih =>
    rw [List.cons_append, sortedLe_cons] at h
    obtain ⟨h1, h2⟩ := h
    rw [List.cons_append, sortedLe_cons]
    refine ⟨?_, ih h2 (fun x hx => hxs x (List.mem_cons_of_mem _ hx))⟩
    intro y hy
    cases xs with
    | nil =>
      rw [List.nil_append] at hy
      cases Option.some.inj hy
      exact hxs a (List.mem_cons_self _ _)
    | cons b xs' =>
      rw [List.cons_append] at hy
      cases Option.some.inj hy
      exact h1 _ rfl

theorem sortedGe_insert (v : Nat) (xs ys : List Nat) (h : sortedGe (xs ++ ys) = true)
    (hxs : ∀ x ∈ xs, v ≤ x) (hys : ∀ y, ys.head? = some y → y < v) :
    sortedGe (xs ++ v :: ys) = true := by
  induction xs with
  | nil =>
    rw [List.nil_append, sortedGe_cons]
    refine ⟨fun y hy => le_of_lt (hys y hy), h⟩
  | cons a xs ih =>
    rw [List.cons_append, sortedGe_cons] at h
    obtain ⟨h1, h2⟩ := h
    rw [List.cons_append, sortedGe_cons]
    refine ⟨?_, ih h2 (fun x hx => hxs x (List.mem_cons_of_mem _ hx))⟩
    intro y hy
    cases xs with
    | nil =>
      rw [List.nil_append] at hy
      cases Option.some.inj hy
      exact hxs a (List.mem_cons_self _ _)
    | cons b xs' =>
      rw [List.cons_append] at hy
      cases Option.some.inj hy
      exact h1 _ rfl

theorem chainOf_eq (s : State) (ids : List Nat) (hrep : ListRep s ids) : chainOf s = ids := by
  obtain ⟨hseg, hhead, _, hlen, _, _⟩ := hrep
  unfold chainOf
  rw [hhead, hlen]
  exact collectNext_spec s.heap ids none (ids.length + 1) hseg (Nat.le_succ _)

theorem pushAscOp_sorted (s : State) (ids : List Nat) (v : Nat)
    (hrep : ListRep s ids) (hcmp : s.lst.compare = none)
    (hsorted : sortedLe (ids.map (valAt s.heap)) = true) :
    ∃ ids', ListRep (applyOp s (Op.pushAsc v)) ids' ∧
      (applyOp s (Op.pushAsc v)).lst.compare = none ∧
      sortedLe (ids'.map (valAt (applyOp s (Op.pushAsc v)).heap)) = true := by
  by_cases hv : v = 0
  · subst hv
    have happ : applyOp s (Op.pushAsc 0) = s := by
      show (match list_node_new s 0 with
            | (s1, some nid) => (list_push_asc s1 nid).1
            | (s1, none) => s1) = s
      rw [list_node_new_zero]
    rw [happ]
    exact ⟨ids, hrep, hcmp, hsorted⟩
  · obtain ⟨h2, hrep1, hget1, hnotin, hlt, hfr1, hlst1, hvals1⟩ :=
      list_node_new_rep s ids v hrep hv
    have hcmp1 : (list_node_new s v).1.lst.compare = none := by rw [hlst1]; exact hcmp
    have he : list_node_new s v = ((list_node_new s v).1, some s.nextId) := by rw [← h2]
    have happ : applyOp s (Op.pushAsc v) = (list_push_asc (list_node_new s v).1 s.nextId).1 := by
      show (match list_node_new s v with
            | (s1, some nid) => (list_push_asc s1 nid).1
            | (s1, none) => s1) = _
      rw [he]
    obtain ⟨l, r, hids, hall, hhd, hpop2, hrep2, hfr2, hni2, hff2, hfc2, hfm2, hvals2⟩ :=
      list_push_asc_rep (list_node_new s v).1 ids s.nextId ⟨none, none, v⟩ hrep1 hget1 hnotin hlt
    have hseg1 : segOk (list_node_new s v).1.heap none ids none = true := hrep1.1
    refine ⟨l ++ s.nextId :: r, by rw [happ]; exact hrep2, ?_, ?_⟩
    · rw [happ, hfc2, hlst1]
      exact hcmp
    · rw [happ]
      have hvnid : valAt (list_node_new s v).1.heap s.nextId = v := by
        unfold valAt
        rw [hget1]
      have hmap : (l ++ s.nextId :: r).map (valAt (list_push_asc (list_node_new s v).1 s.nextId).1.heap) = (l ++ s.nextId :: r).map (valAt (list_node_new s v).1.heap) := by
        exact List.map_congr_left (fun j _ => hvals2 j)
      rw [hmap, List.map_append, List.map_cons, hvnid]
      have hbase : sortedLe ((l.map (valAt (list_node_new s v).1.heap)) ++ (r.map (valAt (list_node_new s v).1.heap))) = true := by
        rw [← List.map_append, ← hids]
        have hm2 : ids.map (valAt (list_node_new s v).1.heap) = ids.map (valAt s.heap) :=
          List.map_congr_left (fun j hj => hvals1 j hj)
        rw [hm2]
        exact hsorted
      refine sortedLe_insert v _ _ hbase ?_ ?_
      · intro x hx
        obtain ⟨j, hj, hjx⟩ := List.mem_map.mp hx
        have hjids : j ∈ ids := hids ▸ List.mem_append_left _ hj
        obtain ⟨n, hn⟩ := segOk_mem_get _ ids none none hseg1 j hjids
        have hbrk := hall j hj
        unfold brkAt at hbrk
        rw [hn] at hbrk
        unfold ascBrk at hbrk
        rw [hcmp1] at hbrk
        have hle : n.val ≤ v := by
          have h3 := of_decide_eq_false hbrk
          have h4 : ¬ (n.val > v) := by simpa using h3
          omega
        have : valAt (list_node_new s v).1.heap j = n.val := by
          unfold valAt
          rw [hn]
        rw [← hjx, this]
        exact hle
      · intro y hy
        rw [List.head?_map] at hy
        cases hr : r.head? with
        | none => rw [hr] at hy; cases hy
        | some b =>
          rw [hr] at hy
          cases Option.some.inj hy
          have hbrk := hhd b hr
          unfold brkAt at hbrk
          cases hn : hget (list_node_new s v).1.heap b with
          | none => rw [hn] at hbrk; cases hbrk
          | some n =>
            rw [hn] at hbrk
            unfold ascBrk at hbrk
            rw [hcmp1] at hbrk
            have hgt : v < n.val := by simpa using of_decide_eq_true hbrk
            have hvb : valAt (list_node_new s v).1.heap b = n.val := by
              unfold valAt
              rw [hn]
            rw [hvb]
            exact hgt

theorem pushDescOp_sorted (s : State) (ids : List Nat) (v : Nat)
    (hrep : ListRep s ids) (hcmp : s.lst.compare = none)
    (hsorted : sortedGe (ids.map (valAt s.heap)) = true) :
    ∃ ids', ListRep (applyOp s (Op.pushDesc v)) ids' ∧
      (applyOp s (Op.pushDesc v)).lst.compare = none ∧
      sortedGe (ids'.map (valAt (applyOp s (Op.pushDesc v)).heap)) = true := by
  by_cases hv : v = 0
  · subst hv
    have happ : applyOp s (Op.pushDesc 0) = s := by
      show (match list_node_new s 0 with
            | (s1, some nid) => (list_push_desc s1 nid).1
            | (s1, none) => s1) = s
      rw [list_node_new_zero]
    rw [happ]
    exact ⟨ids, hrep, hcmp, hsorted⟩
  · obtain ⟨h2, hrep1, hget1, hnotin, hlt, hfr1, hlst1, hvals1⟩ :=
      list_node_new_rep s ids v hrep hv
    have hcmp1 : (list_node_new s v).1.lst.compare = none := by rw [hlst1]; exact hcmp
    have he : list_node_new s v = ((list_node_new s v).1, some s.nextId) := by rw [← h2]
    have happ : applyOp s (Op.pushDesc v) = (list_push_desc (list_node_new s v).1 s.nextId).1 := by
      show (match list_node_new s v with
            | (s1, some nid) => (list_push_desc s1 nid).1
            | (s1, none) => s1) = _
      rw [he]
    obtain ⟨l, r, hids, hall, hhd, hpop2, hrep2, hfr2, hni2, hff2, hfc2, hfm2, hvals2⟩ :=
      list_push_desc_rep (list_node_new s v).1 ids s.nextId ⟨none, none, v⟩ hrep1 hget1 hnotin hlt
    have hseg1 : segOk (list_node_new s v).1.heap none ids none = true := hrep1.1
    refine ⟨l ++ s.nextId :: r, by rw [happ]; exact hrep2, ?_, ?_⟩
    · rw [happ, hfc2, hlst1]
      exact hcmp
    · rw [happ]
      have hvnid : valAt (list_node_new s v).1.heap s.nextId = v := by
        unfold valAt
        rw [hget1]
      have hmap : (l ++ s.nextId :: r).map (valAt (list_push_desc (list_node_new s v).1 s.nextId).1.heap) = (l ++ s.nextId :: r).map (valAt (list_node_new s v).1.heap) := by
        exact List.map_congr_left (fun j _ => hvals2 j)
      rw [hmap, List.map_append, List.map_cons, hvnid]
      have hbase : sortedGe ((l.map (valAt (list_node_new s v).1.heap)) ++ (r.map (valAt (list_node_new s v).1.heap))) = true := by
        rw [← List.map_append, ← hids]
        have hm2 : ids.map (valAt (list_node_new s v).1.heap) = ids.map (valAt s.heap) :=
          List.map_congr_left (fun j hj => hvals1 j hj)
        rw [hm2]
        exact hsorted
      refine sortedGe_insert v _ _ hbase ?_ ?_
      · intro x hx
        obtain ⟨j, hj, hjx⟩ := List.mem_map.mp hx
        have hjids : j ∈ ids := hids ▸ List.mem_append_left _ hj
        obtain ⟨n, hn⟩ := segOk_mem_get _ ids none none hseg1 j hjids
        have hbrk := hall j hj
        unfold brkAt at hbrk
        rw [hn] at hbrk
        unfold descBrk at hbrk
        rw [hcmp1] at hbrk
        have hle : v ≤ n.val := by
          have h3 := of_decide_eq_false hbrk
          have h4 : ¬ (n.val < v) := by simpa using h3
          omega
        have hvj : valAt (list_node_new s v).1.heap j = n.val := by
          unfold valAt
          rw [hn]
        rw [← hjx, hvj]
        exact hle
      · intro y hy
        rw [List.head?_map] at hy
        cases hr : r.head? with
        | none => rw [hr] at hy; cases hy
        | some b =>
          rw [hr] at hy
          cases Option.some.inj hy
          have hbrk := hhd b hr
          unfold brkAt at hbrk
          cases hn : hget (list_node_new s v).1.heap b with
          | none => rw [hn] at hbrk; cases hbrk
          | some n =>
            rw [hn] at hbrk
            unfold descBrk at hbrk
            rw [hcmp1] at hbrk
            have hlt2 : n.val < v := by simpa using of_decide_eq_true hbrk
            have hvb : valAt (list_node_new s v).1.heap b = n.val := by
              unfold valAt
              rw [hn]
            rw [hvb]
            exact hlt2

theorem runAsc_sorted (vs : List Nat) :
    ∀ (s : State) (ids : List Nat), ListRep s ids → s.lst.compare = none →
      sortedLe (ids.map (valAt s.heap)) = true →
      ∃ ids', ListRep ((vs.map Op.pushAsc).foldl applyOp s) ids' ∧
        sortedLe (ids'.map (valAt ((vs.map Op.pushAsc).foldl applyOp s).heap)) = true := by
  induction vs with
  | nil => intro s ids h _ hs; exact ⟨ids, h, hs⟩
  | cons v vs ih =>
    intro s ids h hcmp hs
    obtain ⟨ids1, h1, hcmp1, hs1⟩ := pushAscOp_sorted s ids v h hcmp hs
    exact ih (applyOp s (Op.pushAsc v)) ids1 h1 hcmp1 hs1

theorem runDesc_sorted (vs : List Nat) :
    ∀ (s : State) (ids : List Nat), ListRep s ids → s.lst.compare = none →
      sortedGe (ids.map (valAt s.heap)) = true →
      ∃ ids', ListRep ((vs.map Op.pushDesc).foldl applyOp s) ids' ∧
        sortedGe (ids'.map (valAt ((vs.map Op.pushDesc).foldl applyOp s).heap)) = true := by
  induction vs with
  | nil => intro s ids h _ hs; exact ⟨ids, h, hs⟩
  | cons v vs ih =>
    intro s ids h hcmp hs
    obtain ⟨ids1, h1, hcmp1, hs1⟩ := pushDescOp_sorted s ids v h hcmp hs
    exact ih (applyOp s (Op.pushDesc v)) ids1 h1 hcmp1 hs1

theorem getLast?_eq_none_iff_nil (l : List Nat) : l.getLast? = none ↔ l = [] := by
  cases l with
  | nil => simp
  | cons a t =>
    rw [getLast?_cons_eq]
    constructor
    · intro h
      cases ht : t.getLast? with
      | some x => rw [ht] at h; cases h
      | none => rw [ht] at h; cases h
    · intro h
      cases h

theorem rep_facts (s : State) (ids : List Nat) (hrep : ListRep s ids) :
    (∀ i, s.lst.head = some i → ∃ n, hget s.heap i = some n ∧ n.prev = none) ∧
    (∀ i, s.lst.tail = some i → ∃ n, hget s.heap i = some n ∧ n.next = none) ∧
    (∀ i ∈ ids, ∃ n, hget s.heap i = some n ∧
      (∀ j, n.next = some j → ∃ m, hget s.heap j = some m ∧ m.prev = some i) ∧
      (∀ j, n.prev = some j → ∃ m, hget s.heap j = some m ∧ m.next = some i)) := by
  obtain ⟨hseg, hhead, htail, hlen, hnodup, hbound⟩ := hrep
  refine ⟨?_, ?_, ?_⟩
  · intro i hi
    rw [hhead] at hi
    cases ids with
    | nil => cases hi
    | cons a rest =>
      cases Option.some.inj hi
      rw [segOk_cons] at hseg
      obtain ⟨n, hn, hp, _, _⟩ := hseg
      exact ⟨n, hn, hp⟩
  · intro i hi
    rw [htail] at hi
    rcases List.eq_nil_or_concat ids with rfl | ⟨init, t, rfl⟩
    · cases hi
    · simp only [List.concat_eq_append] at hseg hi
      have ht : t = i := by
        have h0 : (init ++ [t]).getLast? = some t := by simp
        rw [h0] at hi
        exact Option.some.inj hi
      subst ht
      rw [segOk_append] at hseg
      simp only [Bool.and_eq_true] at hseg
      rw [segOk_singleton] at hseg
      obtain ⟨_, n, hn, _, hq⟩ := hseg
      exact ⟨n, hn, hq⟩
  · intro i hi
    obtain ⟨l, r, hids⟩ := List.append_of_mem hi
    subst hids
    have hseg0 := hseg
    rw [segOk_append] at hseg0
    simp only [Bool.and_eq_true] at hseg0
    obtain ⟨hsegL, hsegR⟩ := hseg0
    rw [segOk_cons] at hsegR
    obtain ⟨n, hn, hp, hx, hrest⟩ := hsegR
    refine ⟨n, hn, ?_, ?_⟩
    · intro j hj
      rw [hx] at hj
      cases r with
      | nil => cases hj
      | cons b r' =>
        cases Option.some.inj hj
        rw [segOk_cons] at hrest
        obtain ⟨m, hm, hmp, _, _⟩ := hrest
        exact ⟨m, hm, hmp⟩
    · intro j hj
      rw [hp] at hj
      rcases List.eq_nil_or_concat l with rfl | ⟨l0, q, rfl⟩
      · cases hj
      · simp only [List.concat_eq_append] at hj hsegL
        have hq : q = j := by
          rw [lastCtx_none] at hj
          have h0 : (l0 ++ [q]).getLast? = some q := by simp
          rw [h0] at hj
          exact Option.some.inj hj
        subst hq
        rw [segOk_append] at hsegL
        simp only [Bool.and_eq_true] at hsegL
        rw [segOk_singleton] at hsegL
        obtain ⟨_, m, hm, _, hmn⟩ := hsegL
        refine ⟨m, hm, ?_⟩
        rw [hmn]
        rfl

theorem applyOp_noRelease (s : State) (ids : List Nat) (op : Op) (hrep : ListRep s ids)
    (hfree : s.lst.free = false) :
    (applyOp s op).lst.free = false ∧ (applyOp s op).freed = s.freed := by
  cases op with
  | rpush v =>
    by_cases hv : v = 0
    · subst hv
      have happ : applyOp s (Op.rpush 0) = s := by
        show (match list_node_new s 0 with
              | (s1, some nid) => (list_rpush s1 nid).1
              | (s1, none) => s1) = s
        rw [list_node_new_zero]
      rw [happ]
      exact ⟨hfree, rfl⟩
    · obtain ⟨h2, hrep1, hget1, hnotin, hlt, hfr1, hlst1, _⟩ := list_node_new_rep s ids v hrep hv
      have he : list_node_new s v = ((list_node_new s v).1, some s.nextId) := by rw [← h2]
      have happ : applyOp s (Op.rpush v) = (list_rpush (list_node_new s v).1 s.nextId).1 := by
        show (match list_node_new s v with
              | (s1, some nid) => (list_rpush s1 nid).1
              | (s1, none) => s1) = _
        rw [he]
      obtain ⟨_, _, hfr2, _, hff2, _, _, _⟩ :=
        list_rpush_rep (list_node_new s v).1 ids s.nextId ⟨none, none, v⟩ hrep1 hget1 hnotin hlt
      rw [happ]
      constructor
      · rw [hff2, hlst1]
        exact hfree
      · rw [hfr2, hfr1]
  | lpush v =>
    by_cases hv : v = 0
    · subst hv
      have happ : applyOp s (Op.lpush 0) = s := by
        show (match list_node_new s 0 with
              | (s1, some nid) => (list_lpush s1 nid).1
              | (s1, none) => s1) = s
        rw [list_node_new_zero]
      rw [happ]
      exact ⟨hfree, rfl⟩
    · obtain ⟨h2, hrep1, hget1, hnotin, hlt, hfr1, hlst1, _⟩ := list_node_new_rep s ids v hrep hv
      have he : list_node_new s v = ((list_node_new s v).1, some s.nextId) := by rw [← h2]
      have happ : applyOp s (Op.lpush v) = (list_lpush (list_node_new s v).1 s.nextId).1 := by
        show (match list_node_new s v with
              | (s1, some nid) => (list_lpush s1 nid).1
              | (s1, none) => s1) = _
        rw [he]
      obtain ⟨_, _, hfr2, _, hff2, _, _, _⟩ :=
        list_lpush_rep (list_node_new s v).1 ids s.nextId ⟨none, none, v⟩ hrep1 hget1 hnotin hlt
      rw [happ]
      constructor
      · rw [hff2, hlst1]
        exact hfree
      · rw [hfr2, hfr1]
  | rpop =>
    rcases List.eq_nil_or_concat ids with rfl | ⟨init, t, rfl⟩
    · have hlen0 : s.lst.len = 0 := by
        obtain ⟨_, _, _, hlen, _, _⟩ := hrep
        simpa using hlen
      have happ : applyOp s Op.rpop = s := by
        show (list_rpop s).1 = s
        rw [list_rpop_empty s hlen0]
      rw [happ]
      exact ⟨hfree, rfl⟩
    · simp only [List.concat_eq_append] at hrep
      obtain ⟨_, _, hfr2, _, hff2, _, _, _, _⟩ := list_rpop_rep s init t hrep
      exact ⟨hff2.trans hfree, hfr2⟩
  | lpop =>
    cases ids with
    | nil =>
      have hlen0 : s.lst.len = 0 := by
        obtain ⟨_, _, _, hlen, _, _⟩ := hrep
        simpa using hlen
      have happ : applyOp s Op.lpop = s := by
        show (list_lpop s).1 = s
        rw [list_lpop_empty s hlen0]
      rw [happ]
      exact ⟨hfree, rfl⟩
    | cons hd rest =>
      obtain ⟨_, _, hfr2, _, hff2, _, _, _, _⟩ := list_lpop_rep s hd rest hrep
      exact ⟨hff2.trans hfree, hfr2⟩
  | remove i =>
    cases hat : list_at s (Int.ofNat i) with
    | none =>
      have happ : applyOp s (Op.remove i) = s := by
        show (match list_at s (Int.ofNat i) with
              | some nid => (list_remove s nid).1
              | none => s) = s
        rw [hat]
      rw [happ]
      exact ⟨hfree, rfl⟩
    | some nid =>
      have happ : applyOp s (Op.remove i) = (list_remove s nid).1 := by
        show (match list_at s (Int.ofNat i) with
              | some nid => (list_remove s nid).1
              | none => s) = _
        rw [hat]
      have hmem : nid ∈ ids := by
        rw [list_at_spec s ids hrep (Int.ofNat i)] at hat
        have hpos : ¬ ((Int.ofNat i) < 0) := not_lt.mpr (Int.natCast_nonneg i)
        rw [if_neg hpos] at hat
        exact List.getElem?_mem hat
      obtain ⟨l, r, hids⟩ := List.append_of_mem hmem
      subst hids
      obtain ⟨_, _, hfr2, _, hff2, _, _, _⟩ := list_remove_rep s l nid r hrep
      rw [happ]
      refine ⟨hff2.trans hfree, ?_⟩
      rw [hfr2, hfree]
      simp
  | pushAsc v =>
    by_cases hv : v = 0
    · subst hv
      have happ : applyOp s (Op.pushAsc 0) = s := by
        show (match list_node_new s 0 with
              | (s1, some nid) => (list_push_asc s1 nid).1
              | (s1, none) => s1) = s
        rw [list_node_new_zero]
      rw [happ]
      exact ⟨hfree, rfl⟩
    · obtain ⟨h2, hrep1, hget1, hnotin, hlt, hfr1, hlst1, _⟩ := list_node_new_rep s ids v hrep hv
      have he : list_node_new s v = ((list_node_new s v).1, some s.nextId) := by rw [← h2]
      have happ : applyOp s (Op.pushAsc v) = (list_push_asc (list_node_new s v).1 s.nextId).1 := by
        show (match list_node_new s v with
              | (s1, some nid) => (list_push_asc s1 nid).1
              | (s1, none) => s1) = _
        rw [he]
      obtain ⟨l, r, _, _, _, _, _, hfr2, _, hff2, _, _, _⟩ :=
        list_push_asc_rep (list_node_new s v).1 ids s.nextId ⟨none, none, v⟩ hrep1 hget1 hnotin hlt
      rw [happ]
      constructor
      · rw [hff2, hlst1]
        exact hfree
      · rw [hfr2, hfr1]
  | pushDesc v =>
    by_cases hv : v = 0
    · subst hv
      have happ : applyOp s (Op.pushDesc 0) = s := by
        show (match list_node_new s 0 with
              | (s1, some nid) => (list_push_desc s1 nid).1
              | (s1, none) => s1) = s
        rw [list_node_new_zero]
      rw [happ]
      exact ⟨hfree, rfl⟩
    · obtain ⟨h2, hrep1, hget1, hnotin, hlt, hfr1, hlst1, _⟩ := list_node_new_rep s ids v hrep hv
      have he : list_node_new s v = ((list_node_new s v).1, some s.nextId) := by rw [← h2]
      have happ : applyOp s (Op.pushDesc v) = (list_push_desc (list_node_new s v).1 s.nextId).1 := by
        show (match list_node_new s v with
              | (s1, some nid) => (list_push_desc s1 nid).1
              | (s1, none) => s1) = _
        rw [he]
      obtain ⟨l, r, _, _, _, _, _, hfr2, _, hff2, _, _, _⟩ :=
        list_push_desc_rep (list_node_new s v).1 ids s.nextId ⟨none, none, v⟩ hrep1 hget1 hnotin hlt
      rw [happ]
      constructor
      · rw [hff2, hlst1]
        exact hfree
      · rw [hfr2, hfr1]

theorem runOps_noRelease (ops : List Op) :
    (runOps ops).lst.free = false ∧ (runOps ops).freed = [] := by
  suffices h : ∀ (s : State) (ids : List Nat), ListRep s ids → s.lst.free = false →
      s.freed = [] →
      (ops.foldl applyOp s).lst.free = false ∧ (ops.foldl applyOp s).freed = [] by
    exact h emptyState [] emptyState_rep rfl rfl
  induction ops with
  | nil => intro s ids _ hf hfr; exact ⟨hf, hfr⟩
  | cons op ops ih =>
    intro s ids hrep hf hfr
    obtain ⟨ids1, hrep1⟩ := applyOp_rep s ids op hrep
    obtain ⟨hf1, hfr1⟩ := applyOp_noRelease s ids op hrep hf
    exact ih (applyOp s op) ids1 hrep1 hf1 (hfr1.trans hfr)

theorem mem_left_of_sorted_gt (s : State) (ids l r : List Nat) (v : Nat)
    (hids : ids = l ++ r)
    (hsorted : sortedLe (ids.map (valAt s.heap)) = true)
    (hhd : ∀ b, r.head? = some b → v < valAt s.heap b) :
    ∀ x ∈ ids, valAt s.heap x = v → x ∈ l := by
  intro x hx hvx
  rcases List.mem_append.mp (hids ▸ hx) with h | h
  · exact h
  · exfalso
    cases r with
    | nil => cases h
    | cons b r' =>
      have hvb : v < valAt s.heap b := hhd b rfl
      have hsr : sortedLe ((b :: r').map (valAt s.heap)) = true := by
        refine sortedLe_suffix (l.map (valAt s.heap)) _ ?_
        rw [← List.map_append, ← hids]
        exact hsorted
      rcases List.mem_cons.mp h with rfl | h
      · omega
      · have hle : valAt s.heap b ≤ valAt s.heap x := by
          rw [List.map_cons] at hsr
          exact sortedLe_head_le _ _ hsr _ (List.mem_map_of_mem _ h)
        omega

theorem mem_left_of_sorted_lt (s : State) (ids l r : List Nat) (v : Nat)
    (hids : ids = l ++ r)
    (hsorted : sortedGe (ids.map (valAt s.heap)) = true)
    (hhd : ∀ b, r.head? = some b → valAt s.heap b < v) :
    ∀ x ∈ ids, valAt s.heap x = v → x ∈ l := by
  intro x hx hvx
  rcases List.mem_append.mp (hids ▸ hx) with h | h
  · exact h
  · exfalso
    cases r with
    | nil => cases h
    | cons b r' =>
      have hvb : valAt s.heap b < v := hhd b rfl
      have hsr : sortedGe ((b :: r').map (valAt s.heap)) = true := by
        refine sortedGe_suffix (l.map (valAt s.heap)) _ ?_
        rw [← List.map_append, ← hids]
        exact hsorted
      rcases List.mem_cons.mp h with rfl | h
      · omega
      · have hle : valAt s.heap x ≤ valAt s.heap b := by
          rw [List.map_cons] at hsr
          exact sortedGe_head_ge _ _ hsr _ (List.mem_map_of_mem _ h)
        omega

/-- Claim C1: inserting any sequence of values one at a time into an
initially empty list via `list_push_asc` with no compare callback installed
leaves the chain of value handles in ascending order — in particular
`[5, 1, 4, 2, 3]` yields `[1, 2, 3, 4, 5]` — and symmetrically
`list_push_desc` leaves it in descending order, `[5, 1, 4, 2, 3]` yielding
`[5, 4, 3, 2, 1]`. -/
theorem C1_ordered_insertion (vs : List Nat) :
    sortedLe (valsOf (runOps (vs.map Op.pushAsc))) = true ∧
    sortedGe (valsOf (runOps (vs.map Op.pushDesc))) = true ∧
    valsOf (runOps ([5, 1, 4, 2, 3].map Op.pushAsc)) = [1, 2, 3, 4, 5] ∧
    valsOf (runOps ([5, 1, 4, 2, 3].map Op.pushDesc)) = [5, 4, 3, 2, 1] := by
  refine ⟨?_, ?_, by decide, by decide⟩
  · obtain ⟨ids, hrep, hs⟩ := runAsc_sorted vs emptyState [] emptyState_rep rfl rfl
    unfold valsOf runOps
    rw [chainOf_eq _ ids hrep]
    exact hs
  · obtain ⟨ids, hrep, hs⟩ := runDesc_sorted vs emptyState [] emptyState_rep rfl rfl
    unfold valsOf runOps
    rw [chainOf_eq _ ids hrep]
    exact hs

/-- Claim C3: after every sequence of `list_rpush`, `list_lpush`,
`list_rpop`, `list_lpop`, `list_remove` (of a member node), `list_push_asc`
and `list_push_desc` operations starting from the empty list, `len` equals
the number of nodes reachable from `head` by `next` links, `len = 0` holds
exactly when `head` is absent and exactly when `tail` is absent, the head
has no `prev` and the tail no `next`, and every reachable node `n` satisfies
the link symmetry `n.next.prev = n` and `n.prev.next = n`. -/
theorem C3_structural_invariants (ops : List Op) :
    (chainOf (runOps ops)).length = (runOps ops).lst.len ∧
    ((runOps ops).lst.len = 0 ↔ (runOps ops).lst.head = none) ∧
    ((runOps ops).lst.len = 0 ↔ (runOps ops).lst.tail = none) ∧
    (∀ i, (runOps ops).lst.head = some i →
      ∃ n, hget (runOps ops).heap i = some n ∧ n.prev = none) ∧
    (∀ i, (runOps ops).lst.tail = some i →
      ∃ n, hget (runOps ops).heap i = some n ∧ n.next = none) ∧
    (∀ i ∈ chainOf (runOps ops), ∃ n, hget (runOps ops).heap i = some n ∧
      (∀ j, n.next = some j →
        ∃ m, hget (runOps ops).heap j = some m ∧ m.prev = some i) ∧
      (∀ j, n.prev = some j →
        ∃ m, hget (runOps ops).heap j = some m ∧ m.next = some i)) := by
  obtain ⟨ids, hrep⟩ := runOps_rep ops
  have hchain := chainOf_eq _ ids hrep
  obtain ⟨hf1, hf2, hf3⟩ := rep_facts _ ids hrep
  obtain ⟨hseg, hhead, htail, hlen, _, _⟩ := hrep
  refine ⟨?_, ?_, ?_, hf1, hf2, ?_⟩
  · rw [hchain, hlen]
  · rw [hlen, hhead, List.head?_eq_none_iff, List.length_eq_zero]
  · rw [hlen, htail, getLast?_eq_none_iff_nil, List.length_eq_zero]
  · intro i hi
    exact hf3 i (hchain ▸ hi)

/-- Claim C4: pushing three (non-null) values `a`, `b`, `c` in that order
into an empty list via `list_rpush` (push_back), popping three times with
`list_lpop` (pop_front) returns `a`, `b`, `c` in that order (FIFO), and
popping three times with `list_rpop` (pop_back) returns `c`, `b`, `a`
(LIFO); in both cases the list ends empty. -/
theorem C4_fifo_lifo (a b c : Nat) (ha : a ≠ 0) (hb : b ≠ 0) (hc : c ≠ 0) :
    (let t0 := runOps [Op.rpush a, Op.rpush b, Op.rpush c]
     let p1 := list_lpop t0
     let p2 := list_lpop p1.1
     let p3 := list_lpop p2.1
     p1.2.map (valAt p1.1.heap) = some a ∧
     p2.2.map (valAt p2.1.heap) = some b ∧
     p3.2.map (valAt p3.1.heap) = some c ∧
     p3.1.lst.len = 0) ∧
    (let t0 := runOps [Op.rpush a, Op.rpush b, Op.rpush c]
     let q1 := list_rpop t0
     let q2 := list_rpop q1.1
     let q3 := list_rpop q2.1
     q1.2.map (valAt q1.1.heap) = some c ∧
     q2.2.map (valAt q2.1.heap) = some b ∧
     q3.2.map (valAt q3.1.heap) = some a ∧
     q3.1.lst.len = 0) := by
  have h1 : applyOp emptyState (Op.rpush a) =
      { heap := [(0, ⟨none, none, a⟩), (0, ⟨none, none, a⟩), (0, ⟨none, none, a⟩)], lst := { head := some 0, tail := some 0, len := 1, free := false, matchCb := none, compare := none }, freed := [], nextId := 1 } := by
    simp [applyOp, list_node_new, emptyState, list_new, ha, list_rpush, hset, hsetPrev,
      hsetNext, hget]
  constructor
  · show (let t0 := applyOp (applyOp (applyOp emptyState (Op.rpush a)) (Op.rpush b)) (Op.rpush c)
         let p1 := list_lpop t0
         let p2 := list_lpop p1.1
         let p3 := list_lpop p2.1
         p1.2.map (valAt p1.1.heap) = some a ∧
         p2.2.map (valAt p2.1.heap) = some b ∧
         p3.2.map (valAt p3.1.heap) = some c ∧
         p3.1.lst.len = 0)
    rw [h1]
    simp [applyOp, list_node_new, hb, hc, list_rpush, list_lpop, hset, hsetPrev, hsetNext,
      hget, valAt]
  · show (let t0 := applyOp (applyOp (applyOp emptyState (Op.rpush a)) (Op.rpush b)) (Op.rpush c)
         let q1 := list_rpop t0
         let q2 := list_rpop q1.1
         let q3 := list_rpop q2.1
         q1.2.map (valAt q1.1.heap) = some c ∧
         q2.2.map (valAt q2.1.heap) = some b ∧
         q3.2.map (valAt q3.1.heap) = some a ∧
         q3.1.lst.len = 0)
    rw [h1]
    simp [applyOp, list_node_new, hb, hc, list_rpush, list_rpop, hset, hsetPrev, hsetNext,
      hget, valAt]

theorem C4_fifo_lifo_witness :
    (let t0 := runOps [Op.rpush 1, Op.rpush 2, Op.rpush 3]
     let p1 := list_lpop t0
     let p2 := list_lpop p1.1
     let p3 := list_lpop p2.1
     p1.2.map (valAt p1.1.heap) = some 1 ∧
     p2.2.map (valAt p2.1.heap) = some 2 ∧
     p3.2.map (valAt p3.1.heap) = some 3 ∧
     p3.1.lst.len = 0) ∧
    (let t0 := runOps [Op.rpush 1, Op.rpush 2, Op.rpush 3]
     let q1 := list_rpop t0
     let q2 := list_rpop q1.1
     let q3 := list_rpop q2.1
     q1.2.map (valAt q1.1.heap) = some 3 ∧
     q2.2.map (valAt q2.1.heap) = some 2 ∧
     q3.2.map (valAt q3.1.heap) = some 1 ∧
     q3.1.lst.len = 0) :=
  C4_fifo_lifo 1 2 3 (by decide) (by decide) (by decide)

/-- Claim C8: for a list whose chain is `ids` (length `N`), `list_at i` with
`0 ≤ i < N` returns the `(i+1)`-th node from the head (`ids[i]?`); with
`-N ≤ i < 0` it returns the node at zero-based offset `~i = -i - 1` from the
tail (`ids.reverse[(-i-1).toNat]?`, so `list_at (-1)` is the last node); and
for every `i` outside `[-N, N-1]` in either direction it returns the empty
result. -/
theorem C8_list_at (s : State) (ids : List Nat) (hrep : ListRep s ids) :
    (∀ i : Nat, i < ids.length → list_at s (Int.ofNat i) = ids[i]?) ∧
    (∀ i : Int, -(ids.length : Int) ≤ i → i < 0 →
      list_at s i = ids.reverse[(-i - 1).toNat]?) ∧
    (∀ i : Int, i < -(ids.length : Int) ∨ (ids.length : Int) ≤ i →
      list_at s i = none) := by
  refine ⟨?_, ?_, ?_⟩
  · intro i _
    rw [list_at_spec s ids hrep]
    have hc : ¬ (Int.ofNat i < 0) := not_lt.mpr (Int.natCast_nonneg i)
    rw [if_neg hc]
    simp
  · intro i _ hneg
    rw [list_at_spec s ids hrep, if_pos hneg]
  · intro i hi
    rw [list_at_spec s ids hrep]
    rcases hi with hi | hi
    · have hneg : i < 0 := by omega
      rw [if_pos hneg]
      refine List.getElem?_eq_none ?_
      rw [List.length_reverse]
      omega
    · have hpos : ¬ (i < 0) := by omega
      rw [if_neg hpos]
      refine List.getElem?_eq_none ?_
      omega

theorem C8_list_at_witness :
    list_at (runOps [Op.rpush 10, Op.rpush 20, Op.rpush 30]) 0 = some 0 ∧
    list_at (runOps [Op.rpush 10, Op.rpush 20, Op.rpush 30]) (-1) = some 2 ∧
    list_at (runOps [Op.rpush 10, Op.rpush 20, Op.rpush 30]) 3 = none ∧
    list_at (runOps [Op.rpush 10, Op.rpush 20, Op.rpush 30]) (-4) = none := by
  have h := C8_list_at (runOps [Op.rpush 10, Op.rpush 20, Op.rpush 30]) [0, 1, 2] (by decide)
  refine ⟨?_, ?_, ?_, ?_⟩
  · have h0 := h.1 0 (by decide)
    simpa using h0
  · have h0 := h.2.1 (-1) (by decide) (by decide)
    simpa using h0
  · have h0 := h.2.2 3 (by decide)
    simpa using h0
  · have h0 := h.2.2 (-4) (by decide)
    simpa using h0

/-- Claim C9: on a non-empty list `list_rpop` / `list_lpop` detach and
return the tail / head node without invoking the release callback — the
`freed` log is unchanged whatever the `free` slot holds — and the value
handle of the popped node is returned intact; on an empty list both return
the empty result and leave the list unchanged. -/
theorem C9_pop_no_release (s : State) (ids : List Nat) (hrep : ListRep s ids) :
    (s.lst.len = 0 → list_rpop s = (s, none) ∧ list_lpop s = (s, none)) ∧
    (∀ init t, ids = init ++ [t] →
      (list_rpop s).2 = s.lst.tail ∧
      s.lst.tail = some t ∧
      ListRep (list_rpop s).1 init ∧
      (list_rpop s).1.freed = s.freed ∧
      valAt (list_rpop s).1.heap t = valAt s.heap t) ∧
    (∀ hd rest, ids = hd :: rest →
      (list_lpop s).2 = s.lst.head ∧
      s.lst.head = some hd ∧
      ListRep (list_lpop s).1 rest ∧
      (list_lpop s).1.freed = s.freed ∧
      valAt (list_lpop s).1.heap hd = valAt s.heap hd) := by
  refine ⟨fun h0 => ⟨list_rpop_empty s h0, list_lpop_empty s h0⟩, ?_, ?_⟩
  · intro init t hids
    subst hids
    obtain ⟨h2, hrep2, hfr, _, _, _, _, _, hva⟩ := list_rpop_rep s init t hrep
    have htail : s.lst.tail = some t := by
      rw [hrep.2.2.1]
      simp
    exact ⟨h2.trans htail.symm, htail, hrep2, hfr, hva t⟩
  · intro hd rest hids
    subst hids
    obtain ⟨h2, hrep2, hfr, _, _, _, _, _, hva⟩ := list_lpop_rep s hd rest hrep
    have hhead : s.lst.head = some hd := hrep.2.1
    exact ⟨h2.trans hhead.symm, hhead, hrep2, hfr, hva hd⟩

theorem C9_pop_no_release_witness :
    (list_rpop (runOps [Op.rpush 10, Op.rpush 20])).2 = some 1 ∧
    (list_rpop (runOps [Op.rpush 10, Op.rpush 20])).1.freed = [] ∧
    list_rpop emptyState = (emptyState, none) := by
  have h := C9_pop_no_release (runOps [Op.rpush 10, Op.rpush 20]) [0, 1] (by decide)
  obtain ⟨h1, h2, h3, h4, h5⟩ := h.2.1 [0] 1 rfl
  refine ⟨?_, ?_, ?_⟩
  · rw [h1, h2]
  · rw [h4]
    decide
  · exact (C9_pop_no_release emptyState [] emptyState_rep).1 rfl |>.1

/-- Claim C10: the node returned by `list_rpop` or `list_lpop` on a
non-empty list is fully detached: in the resulting heap its `prev` and
`next` are both reset to null before it is returned. -/
theorem C10_pop_detached (s : State) (ids : List Nat) (hrep : ListRep s ids) :
    (∀ nid, (list_rpop s).2 = some nid →
      ∃ n, hget (list_rpop s).1.heap nid = some n ∧ n.prev = none ∧ n.next = none) ∧
    (∀ nid, (list_lpop s).2 = some nid →
      ∃ n, hget (list_lpop s).1.heap nid = some n ∧ n.prev = none ∧ n.next = none) := by
  constructor
  · intro nid hnid
    rcases List.eq_nil_or_concat ids with rfl | ⟨init, t, rfl⟩
    · have hlen0 : s.lst.len = 0 := by
        obtain ⟨_, _, _, hlen, _, _⟩ := hrep
        simpa using hlen
      rw [list_rpop_empty s hlen0] at hnid
      cases hnid
    · simp only [List.concat_eq_append] at hrep
      obtain ⟨h2, _, _, _, _, _, _, hg, _⟩ := list_rpop_rep s init t hrep
      rw [h2] at hnid
      cases Option.some.inj hnid
      exact ⟨_, hg, rfl, rfl⟩
  · intro nid hnid
    cases ids with
    | nil =>
      have hlen0 : s.lst.len = 0 := by
        obtain ⟨_, _, _, hlen, _, _⟩ := hrep
        simpa using hlen
      rw [list_lpop_empty s hlen0] at hnid
      cases hnid
    | cons hd rest =>
      obtain ⟨h2, _, _, _, _, _, _, hg, _⟩ := list_lpop_rep s hd rest hrep
      rw [h2] at hnid
      cases Option.some.inj hnid
      exact ⟨_, hg, rfl, rfl⟩

theorem C10_pop_detached_witness :
    ∃ n, hget (list_rpop (runOps [Op.rpush 10, Op.rpush 20])).1.heap 1 = some n ∧
      n.prev = none ∧ n.next = none :=
  (C10_pop_detached (runOps [Op.rpush 10, Op.rpush 20]) [0, 1] (by decide)).1 1 (by decide)

/-- Claim C5 counterexample: the list holds the single node 0 (value 9);
node 1 (value 7) was allocated by `list_node_new` but never inserted, so it
does not belong to the list.  `list_remove` on node 1 nevertheless returns 0
(success, not an invalid-argument failure) and mutates the list: the rogue
node's null links are written into `head` and `tail` and `len` is
decremented to 0, while node 0 is still allocated — the chain is corrupted,
refuting "fails with an invalid-argument condition, with the list
unchanged". -/
theorem C5_counterexample :
    (list_remove ((list_node_new (runOps [Op.rpush 9]) 7).1) 1).2 = 0 ∧
    (list_remove ((list_node_new (runOps [Op.rpush 9]) 7).1) 1).1.lst.head = none ∧
    (list_remove ((list_node_new (runOps [Op.rpush 9]) 7).1) 1).1.lst.tail = none ∧
    (list_remove ((list_node_new (runOps [Op.rpush 9]) 7).1) 1).1.lst.len = 0 ∧
    ((list_node_new (runOps [Op.rpush 9]) 7).1).lst.head = some 0 ∧
    ((list_node_new (runOps [Op.rpush 9]) 7).1).lst.len = 1 ∧
    hget (list_remove ((list_node_new (runOps [Op.rpush 9]) 7).1) 1).1.heap 0 =
      some ⟨none, none, 9⟩ := by
  decide

/-- Claim C5 amended: `list_remove` validates only that its two handles are
non-null — a null handle fails with -1 and no mutation.  Membership of the
node in the list is NOT validated: removing a non-null node that does not
belong to the list is not reported as a failure; the code rewires the chain
through the rogue node's own links, decrements `len` and returns 0,
corrupting the list (shown here on the concrete corrupting input). -/
theorem C5_remove_amended :
    (∀ os : Option State, list_remove_c os none = (os, -1)) ∧
    (∀ onid : Option Nat, list_remove_c none onid = (none, -1)) ∧
    ((list_remove ((list_node_new (runOps [Op.rpush 9]) 7).1) 1).2 = 0 ∧
     (list_remove ((list_node_new (runOps [Op.rpush 9]) 7).1) 1).1.lst.head = none ∧
     (list_remove ((list_node_new (runOps [Op.rpush 9]) 7).1) 1).1.lst.len = 0) := by
  refine ⟨?_, ?_, by decide⟩
  · intro os
    cases os <;> rfl
  · intro onid
    cases onid <;> rfl

/-- Claim C6 counterexample: `list_iterator_new` and `list_iterator_next`
perform no null check; on a null handle they dereference it (undefined
behaviour, `CResult.nullDeref`) instead of returning an empty/failure
result. -/
theorem C6_counterexample :
    list_iterator_new_c none LIST_HEAD = CResult.nullDeref ∧
    list_iterator_next_c [] none = CResult.nullDeref :=
  ⟨rfl, rfl⟩

/-- Claim C6 amended: the operations that do check their handles —
`list_remove`, `list_rpush`, `list_lpush`, `list_rpop`, `list_lpop`,
`list_push_asc`, `list_push_desc`, `list_at`, `list_find` — report a null
list or node handle by returning an empty/failure result with no mutation;
but iterator construction (`list_iterator_new`) and iterator advance
(`list_iterator_next`) perform no null check and dereference the null
handle. -/
theorem C6_null_handles_amended :
    (∀ s : State, list_remove_c (some s) none = (some s, -1)) ∧
    (∀ onid : Option Nat, list_remove_c none onid = (none, -1)) ∧
    (∀ s : State, list_rpush_c (some s) none = (some s, none)) ∧
    (∀ onid : Option Nat, list_rpush_c none onid = (none, none)) ∧
    (∀ s : State, list_lpush_c (some s) none = (some s, none)) ∧
    (∀ onid : Option Nat, list_lpush_c none onid = (none, none)) ∧
    list_rpop_c none = (none, none) ∧
    list_lpop_c none = (none, none) ∧
    (∀ s : State, list_push_asc_c (some s) none = (some s, none)) ∧
    (∀ onid : Option Nat, list_push_asc_c none onid = (none, none)) ∧
    (∀ s : State, list_push_desc_c (some s) none = (some s, none)) ∧
    (∀ onid : Option Nat, list_push_desc_c none onid = (none, none)) ∧
    (∀ index : Int, list_at_c none index = none) ∧
    (∀ v : Nat, list_find_c none v = none) ∧
    (∀ d : list_direction_t, list_iterator_new_c none d = CResult.nullDeref) ∧
    (∀ h : Heap, list_iterator_next_c h none = CResult.nullDeref) := by
  refine ⟨fun s => rfl, ?_, fun s => rfl, ?_, fun s => rfl, ?_, rfl, rfl,
    fun s => rfl, ?_, fun s => rfl, ?_, fun index => rfl, fun v => rfl,
    fun d => rfl, fun h => rfl⟩
  all_goals intro onid
  all_goals cases onid <;> rfl

/-- Claim C7 counterexample: the `static inline list_new` of src/list.h
(line 124, `self->free = LIST_FREE`) DOES install a release callback on a
fresh list: removing a node from a list fresh from that constructor invokes
the release function on the stored value (42 lands in the release log),
refuting "none of the three callbacks installed / never invokes a release
function until the caller installs one". -/
theorem C7_counterexample :
    list_new_h.free = true ∧
    (list_remove ((list_rpush (list_node_new emptyStateH 42).1 0).1) 0).1.freed = [42] := by
  decide

/-- Claim C7 amended: `list_new` of src/list.c installs none of the three
callbacks (all slots cleared, empty list), and a list fresh from it never
invokes a release function under any sequence of operations; the
`static inline list_new` of src/list.h differs in exactly one slot — it
initializes the release callback to `LIST_FREE` (match and compare stay
uninstalled), so node removal on a list it built does invoke a release
function on the value. -/
theorem C7_list_new_amended :
    (list_new.head = none ∧ list_new.tail = none ∧ list_new.len = 0 ∧
     list_new.free = false ∧ list_new.matchCb = none ∧ list_new.compare = none) ∧
    (∀ ops : List Op, (runOps ops).freed = []) ∧
    (list_new_h.head = none ∧ list_new_h.tail = none ∧ list_new_h.len = 0 ∧
     list_new_h.free = true ∧ list_new_h.matchCb = none ∧ list_new_h.compare = none) ∧
    (list_remove ((list_rpush (list_node_new emptyStateH 42).1 0).1) 0).1.freed = [42] := by
  refine ⟨⟨rfl, rfl, rfl, rfl, rfl, rfl⟩, ?_, ⟨rfl, rfl, rfl, rfl, rfl, rfl⟩, by decide⟩
  intro ops
  exact (runOps_noRelease ops).2

/-- Claim C2 counterexample: with the documented compare callback installed
("if a > b, return 1, else return 0", i.e. strict greater-than), the list
holds the single node 0 with value 5 (x1); `list_push_desc` of a fresh node
1 with the equal value 5 (x2) places the new node BEFORE the block of equal
nodes — the final chain is `[1, 0]`, x2 before x1 — because the descending
scan breaks on the first node that does NOT compare strictly greater, which
is the first equal node.  This refutes the claim that both ordered
insertions are stable under an installed compare callback. -/
theorem C2_counterexample :
    (let s0 := runOps [Op.rpush 5]
     let s : State := { s0 with lst := { s0.lst with compare := some (fun a b => decide (a > b)) } }
     valAt (list_node_new s 5).1.heap 0 = 5 ∧
     valAt (list_node_new s 5).1.heap 1 = 5 ∧
     (list_node_new s 5).2 = some 1 ∧
     (list_push_desc (list_node_new s 5).1 1).2 = some 1 ∧
     chainOf (list_push_desc (list_node_new s 5).1 1).1 = [1, 0]) := by
  decide

/-- Claim C2 amended: on a list whose chain is kept sorted by the active
ordering, (1) ascending insertion with no compare callback, (2) descending
insertion with no compare callback, and (3) ascending insertion under the
documented strict greater-than compare callback all place a new node after
every equal-valued node already present (stable: the earlier x1 stays before
the new x2); but (4) descending insertion under that compare callback places
the new node before every equal-valued node already present (unstable). -/
theorem C2_stability_amended :
    (∀ (s : State) (ids : List Nat) (nid : Nat) (nd : list_node_t),
       ListRep s ids → s.lst.compare = none →
       sortedLe (ids.map (valAt s.heap)) = true →
       hget s.heap nid = some nd → nid ∉ ids → nid < s.nextId →
       ∃ l r, ids = l ++ r ∧ ListRep (list_push_asc s nid).1 (l ++ nid :: r) ∧
         ∀ x ∈ ids, valAt s.heap x = nd.val → x ∈ l) ∧
    (∀ (s : State) (ids : List Nat) (nid : Nat) (nd : list_node_t),
       ListRep s ids → s.lst.compare = none →
       sortedGe (ids.map (valAt s.heap)) = true →
       hget s.heap nid = some nd → nid ∉ ids → nid < s.nextId →
       ∃ l r, ids = l ++ r ∧ ListRep (list_push_desc s nid).1 (l ++ nid :: r) ∧
         ∀ x ∈ ids, valAt s.heap x = nd.val → x ∈ l) ∧
    (∀ (s : State) (ids : List Nat) (nid : Nat) (nd : list_node_t),
       ListRep s ids → s.lst.compare = some (fun a b => decide (a > b)) →
       sortedLe (ids.map (valAt s.heap)) = true →
       hget s.heap nid = some nd → nid ∉ ids → nid < s.nextId →
       ∃ l r, ids = l ++ r ∧ ListRep (list_push_asc s nid).1 (l ++ nid :: r) ∧
         ∀ x ∈ ids, valAt s.heap x = nd.val → x ∈ l) ∧
    (∀ (s : State) (ids : List Nat) (nid : Nat) (nd : list_node_t),
       ListRep s ids → s.lst.compare = some (fun a b => decide (a > b)) →
       hget s.heap nid = some nd → nid ∉ ids → nid < s.nextId →
       ∃ l r, ids = l ++ r ∧ ListRep (list_push_desc s nid).1 (l ++ nid :: r) ∧
         ∀ x ∈ ids, valAt s.heap x = nd.val → x ∈ r) := by
  refine ⟨?_, ?_, ?_, ?_⟩
  · intro s ids nid nd hrep hcmp hsorted hn hmem hbnd
    obtain ⟨l, r, hids, hall, hhd, _, hrep2, _, _, _, _, _, _⟩ :=
      list_push_asc_rep s ids nid nd hrep hn hmem hbnd
    refine ⟨l, r, hids, hrep2, ?_⟩
    refine mem_left_of_sorted_gt s ids l r nd.val hids hsorted ?_
    intro b hb
    have hbrk := hhd b hb
    have hbids : b ∈ ids := by
      rw [hids]
      cases r with
      | nil => cases hb
      | cons b' r' =>
        cases Option.some.inj hb
        exact List.mem_append_right _ (List.mem_cons_self _ _)
    obtain ⟨n, hnb⟩ := segOk_mem_get s.heap ids none none hrep.1 b hbids
    unfold brkAt at hbrk
    rw [hnb] at hbrk
    unfold ascBrk at hbrk
    rw [hcmp] at hbrk
    have hv : valAt s.heap b = n.val := by unfold valAt; rw [hnb]
    rw [hv]
    simpa using of_decide_eq_true hbrk
  · intro s ids nid nd hrep hcmp hsorted hn hmem hbnd
    obtain ⟨l, r, hids, hall, hhd, _, hrep2, _, _, _, _, _, _⟩ :=
      list_push_desc_rep s ids nid nd hrep hn hmem hbnd
    refine ⟨l, r, hids, hrep2, ?_⟩
    refine mem_left_of_sorted_lt s ids l r nd.val hids hsorted ?_
    intro b hb
    have hbrk := hhd b hb
    have hbids : b ∈ ids := by
      rw [hids]
      cases r with
      | nil => cases hb
      | cons b' r' =>
        cases Option.some.inj hb
        exact List.mem_append_right _ (List.mem_cons_self _ _)
    obtain ⟨n, hnb⟩ := segOk_mem_get s.heap ids none none hrep.1 b hbids
    unfold brkAt at hbrk
    rw [hnb] at hbrk
    unfold descBrk at hbrk
    rw [hcmp] at hbrk
    have hv : valAt s.heap b = n.val := by unfold valAt; rw [hnb]
    rw [hv]
    simpa using of_decide_eq_true hbrk
  · intro s ids nid nd hrep hcmp hsorted hn hmem hbnd
    obtain ⟨l, r, hids, hall, hhd, _, hrep2, _, _, _, _, _, _⟩ :=
      list_push_asc_rep s ids nid nd hrep hn hmem hbnd
    refine ⟨l, r, hids, hrep2, ?_⟩
    refine mem_left_of_sorted_gt s ids l r nd.val hids hsorted ?_
    intro b hb
    have hbrk := hhd b hb
    have hbids : b ∈ ids := by
      rw [hids]
      cases r with
      | nil => cases hb
      | cons b' r' =>
        cases Option.some.inj hb
        exact List.mem_append_right _ (List.mem_cons_self _ _)
    obtain ⟨n, hnb⟩ := segOk_mem_get s.heap ids none none hrep.1 b hbids
    unfold brkAt at hbrk
    rw [hnb] at hbrk
    unfold ascBrk at hbrk
    rw [hcmp] at hbrk
    have hbrk' : decide (n.val > nd.val) = true := hbrk
    have hv : valAt s.heap b = n.val := by unfold valAt; rw [hnb]
    rw [hv]
    simpa using of_decide_eq_true hbrk'
  · intro s ids nid nd hrep hcmp hn hmem hbnd
    obtain ⟨l, r, hids, hall, hhd, _, hrep2, _, _, _, _, _, _⟩ :=
      list_push_desc_rep s ids nid nd hrep hn hmem hbnd
    refine ⟨l, r, hids, hrep2, ?_⟩
    intro x hx hvx
    rcases List.mem_append.mp (hids ▸ hx) with hxl | hxr
    · exfalso
      have hbrk := hall x hxl
      obtain ⟨n, hnx⟩ := segOk_mem_get s.heap ids none none hrep.1 x hx
      unfold brkAt at hbrk
      rw [hnx] at hbrk
      unfold descBrk at hbrk
      rw [hcmp] at hbrk
      have h3 : (! decide (n.val > nd.val)) = false := hbrk
      have h4 : decide (n.val > nd.val) = true := by
        cases hd : decide (n.val > nd.val) with
        | true => rfl
        | false => rw [hd] at h3; cases h3
      have hgt : nd.val < n.val := by simpa using of_decide_eq_true h4
      have hvn : valAt s.heap x = n.val := by unfold valAt; rw [hnx]
      rw [hvn] at hvx
      omega
    · exact hxr

theorem C2_stability_amended_witness :
    ∃ l r, ([0] : List Nat) = l ++ r ∧
      ListRep (list_push_asc ((list_node_new (runOps [Op.pushAsc 5]) 5).1) 1).1 (l ++ 1 :: r) ∧
      ∀ x ∈ ([0] : List Nat),
        valAt ((list_node_new (runOps [Op.pushAsc 5]) 5).1).heap x =
          (⟨none, none, 5⟩ : list_node_t).val → x ∈ l :=
  C2_stability_amended.1 ((list_node_new (runOps [Op.pushAsc 5]) 5).1) [0] 1 ⟨none, none, 5⟩
    (by decide) rfl (by decide) (by decide) (by decide) (by decide)
